import Mathlib

/-
  Verification of the libclub transport socket core (src/club/transport/socket.h).

  Shallow embedding of the class SocketImpl: its fields become a Lean
  structure, each member function becomes a state-transition function that
  additionally returns the externally observable events produced by that
  dispatch (user-callback invocations, UDP sends, alarm activity).

  User callbacks are opaque: each invocation consumes one CbEffect from an
  environment list describing what the callback did (destroy the endpoint,
  close the socket, re-register itself).  This mirrors the source's
  was_destroyed / is_open checks after every callback.

  Components whose implementation is not under src/ (AckSet, OutMessage,
  PendingMessage, InMessagePart, TransmitQueue, binary::encoder) are
  modelled from the spec (sections 3, 4.2, 4.3, 6) and marked as such.
-/

namespace Club

/- Sequence numbers (spec section 3) are per-direction monotone counters.
The source uses a 32-bit unsigned integer; the protocol counters are
modelled as Nat (they advance by one per message from small origins). -/

inductive MessageType where
  | sync
  | reliable
  | unreliable
  | keep_alive
  | close
deriving DecidableEq, Repr

inductive Err where
  | operationAborted
  | parseError
  | timedOut
  | connectionReset
  | other (code : Nat)
deriving DecidableEq, Repr

/-- A UDP endpoint address+port, with the address predicates used by
SocketImpl (is_unspecified, is_loopback). -/
structure Endpoint where
  unspecified : Bool
  loopback : Bool
  host : Nat
  port : Nat
deriving DecidableEq, Repr

inductive SendState where
  | sending
  | waiting
  | pending
deriving DecidableEq, Repr

/-- What a user callback did when it was invoked: it may destroy the
endpoint, close the UDP socket, or re-register itself into its slot. -/
structure CbEffect where
  destroys : Bool
  closes : Bool
  rearm : Bool
deriving DecidableEq, Repr

def CbEffect.benign : CbEffect := ⟨false, false, false⟩

/-- Externally observable events of one dispatch. -/
inductive Event where
  | deliverReliable (sn : Nat) (payload : List Nat)
  | deliverUnreliable (sn : Nat) (payload : List Nat)
  | recvCbError (reliable : Bool) (err : Err)
  | flushed
  | sentPacket (bytes : Nat)
  | startedReceive
  | armedPacer (micros : Nat)
  | assertFailed
deriving DecidableEq, Repr

/-- Modelled from the spec: the AckSet window width N (spec section 3 calls
it implementation-defined; the file club/transport/ack_set.h is not under
src/).  Any fixed positive width works for the claims. -/
def ackWindow : Nat := 64

/-- Modelled from the spec: AckSet (spec section 3), a base SN plus a bitmap
over the window of its successors; the bitmap is represented as the set of
offsets from the base that are marked received.  Its implementation file is
not under src/; only try_add / can_add / is_in are used by socket.h. -/
structure AckSet where
  hasEntries : Bool
  base : Nat
  bits : Finset Nat
deriving DecidableEq

def AckSet.empty : AckSet := ⟨false, 0, ∅⟩

def AckSet.is_in (a : AckSet) (sn : Nat) : Bool :=
  a.hasEntries && decide (a.base ≤ sn) && decide ((sn - a.base) ∈ a.bits)

def AckSet.can_add (a : AckSet) (sn : Nat) : Bool :=
  !a.hasEntries || (decide (a.base ≤ sn) && !(a.is_in sn))

def AckSet.try_add (a : AckSet) (sn : Nat) : AckSet :=
  if !a.hasEntries then ⟨true, sn, {0}⟩
  else if sn < a.base then a
  else if sn < a.base + ackWindow then ⟨true, a.base, insert (sn - a.base) a.bits⟩
  else
    let shift := sn + 1 - ackWindow - a.base
    ⟨true, a.base + shift,
      insert (ackWindow - 1) ((a.bits.filter (fun i => shift ≤ i)).image (fun i => i - shift))⟩

/-- Spec section 3: a fully received message handed to the user. -/
structure InMessageFull where
  sequence_number : Nat
  payload : List Nat
deriving DecidableEq, Repr

/-- Modelled from the spec: InMessagePart (spec sections 3 and 6), one
decoded wire message part; its implementation file is not under src/.
chunk_length is payload.length. -/
structure InMessagePart where
  type : MessageType
  sequence_number : Nat
  total_size : Nat
  chunk_start : Nat
  payload : List Nat
deriving DecidableEq, Repr

/-- Spec section 4.3: a part is complete when it is the whole message. -/
def InMessagePart.is_complete (m : InMessagePart) : Bool :=
  decide (m.chunk_start = 0) && decide (m.payload.length = m.total_size)

/-- Spec section 4.3: Some only when chunk_start = 0 and
chunk_length = total_size. -/
def InMessagePart.get_complete_message (m : InMessagePart) : Option InMessageFull :=
  if m.is_complete then some ⟨m.sequence_number, m.payload⟩ else none

/-- Write bytes into a fixed-size buffer at the given offset (the part of
the write that fits). -/
def writeChunk (buf : List Nat) (off : Nat) (bytes : List Nat) : List Nat :=
  buf.take off ++ bytes.take (buf.length - off) ++ buf.drop (off + bytes.length)

/-- Modelled from the spec: PendingMessage (spec sections 3 and 4.3), a
partially received message with a byte-range coverage map; its
implementation file is not under src/. -/
structure PendingMessage where
  sequence_number : Nat
  total_size : Nat
  payload : List Nat
  coverage : List (Nat × Nat)
deriving DecidableEq, Repr

/-- Constructing a PendingMessage from a part pre-allocates total_size
bytes and applies the part's chunk. -/
def PendingMessage.ofPart (m : InMessagePart) : PendingMessage :=
  ⟨m.sequence_number, m.total_size,
    writeChunk (List.replicate m.total_size 0) m.chunk_start m.payload,
    [(m.chunk_start, m.chunk_start + m.payload.length)]⟩

/-- Spec section 4.3: copy bytes at chunk_start and union the range. -/
def PendingMessage.update_payload (pm : PendingMessage) (chunk_start : Nat)
    (bytes : List Nat) : PendingMessage :=
  ⟨pm.sequence_number, pm.total_size,
    writeChunk pm.payload chunk_start bytes,
    (chunk_start, chunk_start + bytes.length) :: pm.coverage⟩

/-- Spec section 4.3: complete iff coverage is all of the interval from 0
to total_size. -/
def PendingMessage.is_complete (pm : PendingMessage) : Bool :=
  (List.range pm.total_size).all
    (fun i => pm.coverage.any (fun r => decide (r.1 ≤ i) && decide (i < r.2)))

def PendingMessage.get_complete_message (pm : PendingMessage) : Option InMessageFull :=
  if pm.is_complete then some ⟨pm.sequence_number, pm.payload⟩ else none

/-- Modelled from the spec: OutMessage (spec section 3); its implementation
file is not under src/. -/
structure OutMessage where
  resend_until_acked : Bool
  type : MessageType
  sequence_number : Nat
  payload : List Nat
  bytes_already_sent : Nat
deriving DecidableEq, Repr

def OutMessage.payload_size (m : OutMessage) : Nat := m.payload.length

/-- Spec section 6 message part layout: type u8 + reliable u8 + sn u32 +
total_size u16 + chunk_start u16 + chunk_len u16. -/
def OutMessage.header_size : Nat := 12

/-- Modelled from the spec: binary::encoder (spec section 6); its
implementation file is not under src/.  Only the sizes matter for socket.h:
the encoder tracks how many bytes were written into a fixed buffer and
raises its error flag when a write does not fit. -/
structure Encoder where
  capacity : Nat
  written : Nat
  error : Bool
deriving DecidableEq, Repr

def Encoder.remaining_size (e : Encoder) : Nat := e.capacity - e.written

def Encoder.putBytes (e : Encoder) (n : Nat) : Encoder :=
  if e.written + n ≤ e.capacity then ⟨e.capacity, e.written + n, e.error⟩
  else ⟨e.capacity, e.written, true⟩

/-- socket.h: static const size_t packet_size = 1452. -/
def packet_size : Nat := 1452

/-- socket.h: keepalive_period() = 200 ms. -/
def keepalive_period : Nat := 200

/-- Modelled from the spec: wire size of an encoded AckSet (spec section 6,
base SN plus bitmap; the codec file is not under src/).  The exact value is
irrelevant to the claims, only that it is a small constant. -/
def ackSetEncodedSize : Nat := 13

/-- socket.h SocketImpl::Sync: seeded from the peer's sync SN. -/
structure Sync where
  last_used_reliable_sn : Nat
  last_used_unreliable_sn : Nat
deriving DecidableEq, Repr

/-- The SocketImpl state.  Callbacks are modelled by registration flags
(their bodies are opaque, see CbEffect); _socket.is_open() is socket_open;
was_destroyed is the shared SocketState flag; the two async alarms and the
pacer timer are modelled by their armed state.  The TransmitQueue (whose
implementation file is not under src/) is the list of OutMessages in the
order the current cycle visits them (spec section 4.2); its persistent
round-robin cursor position is not modelled, no claim depends on it. -/
structure Socket where
  send_state : SendState
  socket_open : Bool
  remote_endpoint : Endpoint
  transmit_queue : List OutMessage
  sync : Option Sync
  pending_reliable : List PendingMessage
  pending_unreliable : Option PendingMessage
  schedule_sending_acks : Bool
  received_message_ids_by_peer : AckSet
  received_message_ids : AckSet
  next_reliable_sn : Nat
  next_unreliable_sn : Nat
  on_receive_reliable : Bool
  on_receive_unreliable : Bool
  on_flush : Bool
  recv_timeout_alarm : Bool
  send_keepalive_alarm : Option Nat
  timer_pending : Bool
  was_destroyed : Bool
deriving DecidableEq

/-- Result of one dispatch: new state, remaining callback-effect
environment, events emitted (in order). -/
structure Step where
  sock : Socket
  env : List CbEffect
  events : List Event
deriving DecidableEq

/-- Result of user_handle_reliable_msg: its bool return plus the dispatch
result. -/
structure UStep where
  ok : Bool
  sock : Socket
  env : List CbEffect
  events : List Event
deriving DecidableEq

inductive CbSlot where
  | relRx
  | unrelRx
  | flushCb
deriving DecidableEq, Repr

/-- Apply what an invoked user callback did.  The slot was moved out before
the invocation, so afterwards it holds exactly what the callback
re-registered. -/
def applyEffect (s : Socket) (slot : CbSlot) (e : CbEffect) : Socket :=
  let s1 := { s with was_destroyed := s.was_destroyed || e.destroys,
                     socket_open := s.socket_open && !e.closes }
  match slot with
  | CbSlot.relRx => { s1 with on_receive_reliable := e.rearm }
  | CbSlot.unrelRx => { s1 with on_receive_unreliable := e.rearm }
  | CbSlot.flushCb => { s1 with on_flush := e.rearm }

/-- socket.h SocketImpl::user_handle_reliable_msg (lines 507-521): if no
reliable callback is registered return false; otherwise move it out, invoke
it, and - unless the callback destroyed the endpoint - ack the SN, advance
last_used_reliable_sn and return true. -/
def user_handle_reliable_msg (s : Socket) (env : List CbEffect)
    (msg : InMessageFull) : UStep :=
  if !s.on_receive_reliable then ⟨false, s, env, []⟩
  else
    let e := env.headD CbEffect.benign
    let s1 := applyEffect s CbSlot.relRx e
    let evs := [Event.deliverReliable msg.sequence_number msg.payload]
    if s1.was_destroyed then ⟨false, s1, env.tail, evs⟩
    else
      ⟨true,
        { s1 with
          received_message_ids := s1.received_message_ids.try_add msg.sequence_number,
          sync := s1.sync.map (fun sy => ⟨msg.sequence_number, sy.last_used_unreliable_sn⟩) },
        env.tail, evs⟩

/-- socket.h SocketImpl::replay_pending_messages (lines 487-503), as a
recursion over the pending map in ascending SN order.  kept accumulates the
entries already scanned and not erased (in reverse).  The none case of sync
is unreachable from socket.h (callers check _sync first) and keeps the
state unchanged. -/
def replay_go (s : Socket) (env : List CbEffect) (kept rest : List PendingMessage) : Step :=
  match rest with
  | [] => ⟨{ s with pending_reliable := kept.reverse }, env, []⟩
  | pm :: rest' =>
    match s.sync with
    | none => ⟨{ s with pending_reliable := kept.reverse ++ pm :: rest' }, env, []⟩
    | some sy =>
      if pm.sequence_number = sy.last_used_reliable_sn + 1 then
        match pm.get_complete_message with
        | none => ⟨{ s with pending_reliable := kept.reverse ++ pm :: rest' }, env, []⟩
        | some full =>
          let r := user_handle_reliable_msg s env full
          if r.ok then
            let r2 := replay_go r.sock r.env kept rest'
            ⟨r2.sock, r2.env, r.events ++ r2.events⟩
          else
            ⟨{ r.sock with pending_reliable := kept.reverse ++ pm :: rest' }, r.env, r.events⟩
      else
        replay_go s env (pm :: kept) rest'

def replay_pending_messages (s : Socket) (env : List CbEffect) : Step :=
  replay_go s env [] s.pending_reliable

/-- Insert into the pending map keeping ascending SN order (std::map). -/
def insertPending (pm : PendingMessage) : List PendingMessage → List PendingMessage
  | [] => [pm]
  | q :: rest =>
    if pm.sequence_number ≤ q.sequence_number then pm :: q :: rest
    else q :: insertPending pm rest

/-- Merge the part's chunk into the pending entry carrying its SN
(i->second.update_payload(msg.chunk_start, msg.payload)). -/
def mergePending (msg : InMessagePart) (l : List PendingMessage) : List PendingMessage :=
  l.map (fun pm =>
    if pm.sequence_number = msg.sequence_number
    then pm.update_payload msg.chunk_start msg.payload else pm)

/-- socket.h SocketImpl::handle_reliable_message lines 474-482: find or
create the pending entry; on find, merge the chunk and replay; on create,
just insert the entry built from the part. -/
def reliable_fallthrough (s : Socket) (env : List CbEffect) (msg : InMessagePart) : Step :=
  if s.pending_reliable.any (fun pm => pm.sequence_number = msg.sequence_number) then
    let s1 := { s with pending_reliable := mergePending msg s.pending_reliable }
    replay_pending_messages s1 env
  else
    ⟨{ s with pending_reliable := insertPending (PendingMessage.ofPart msg) s.pending_reliable },
      env, []⟩

/-- The body of SocketImpl::handle_reliable_message after the
_schedule_sending_acks = true statement (lines 464-483). -/
def handle_reliable_core (s : Socket) (env : List CbEffect) (msg : InMessagePart) : Step :=
  match s.sync with
  | none => ⟨s, env, []⟩
  | some sy =>
    if !(s.received_message_ids.can_add msg.sequence_number) then ⟨s, env, []⟩
    else if msg.sequence_number = sy.last_used_reliable_sn + 1 then
      match msg.get_complete_message with
      | some full =>
        let r := user_handle_reliable_msg s env full
        if !r.ok then ⟨r.sock, r.env, r.events⟩
        else
          let r2 := replay_pending_messages r.sock r.env
          ⟨r2.sock, r2.env, r.events ++ r2.events⟩
      | none => reliable_fallthrough s env msg
    else reliable_fallthrough s env msg

/-- socket.h SocketImpl::handle_reliable_message (lines 461-483). -/
def handle_reliable_message (s0 : Socket) (env : List CbEffect) (msg : InMessagePart) : Step :=
  handle_reliable_core { s0 with schedule_sending_acks := true } env msg

/-- The message-dispatch loop of SocketImpl::on_receive (lines 404-412)
restricted to reliable parts: after each dispatch, stop if the endpoint was
destroyed or the socket was closed. -/
def processReliableParts (s : Socket) (env : List CbEffect) :
    List InMessagePart → Step
  | [] => ⟨s, env, []⟩
  | m :: rest =>
    let r := handle_reliable_message s env m
    if r.sock.was_destroyed || !r.sock.socket_open then r
    else
      let r2 := processReliableParts r.sock r.env rest
      ⟨r2.sock, r2.env, r.events ++ r2.events⟩

/-- The SNs of the reliable deliveries among a list of events. -/
def reliableSns (evs : List Event) : List Nat :=
  evs.filterMap (fun e => match e with
    | Event.deliverReliable sn _ => some sn
    | _ => none)

/-- The SNs of the unreliable deliveries among a list of events. -/
def unreliableSns (evs : List Event) : List Nat :=
  evs.filterMap (fun e => match e with
    | Event.deliverUnreliable sn _ => some sn
    | _ => none)

/-- socket.h SocketImpl::handle_unreliable_message (lines 525-564). -/
def handle_unreliable_message (s : Socket) (env : List CbEffect)
    (msg : InMessagePart) : Step :=
  if !s.on_receive_unreliable then ⟨s, env, []⟩
  else match s.sync with
  | none => ⟨s, env, []⟩
  | some sy =>
    if msg.sequence_number ≤ sy.last_used_unreliable_sn then ⟨s, env, []⟩
    else if msg.is_complete then
      let e := env.headD CbEffect.benign
      let s1 := applyEffect s CbSlot.unrelRx e
      let evs := [Event.deliverUnreliable msg.sequence_number msg.payload]
      if s1.was_destroyed then ⟨s1, env.tail, evs⟩
      else
        ⟨{ s1 with
            sync := some ⟨sy.last_used_reliable_sn, msg.sequence_number⟩,
            pending_unreliable := none }, env.tail, evs⟩
    else match s.pending_unreliable with
    | none =>
      ⟨{ s with pending_unreliable := some (PendingMessage.ofPart msg) }, env, []⟩
    | some pm =>
      if pm.sequence_number < msg.sequence_number then
        ⟨{ s with pending_unreliable := some (PendingMessage.ofPart msg) }, env, []⟩
      else if pm.sequence_number > msg.sequence_number then ⟨s, env, []⟩
      else
        let pm' := pm.update_payload msg.chunk_start msg.payload
        if pm'.is_complete then
          let e := env.headD CbEffect.benign
          let s1 := applyEffect { s with pending_unreliable := some pm' } CbSlot.unrelRx e
          let evs := [Event.deliverUnreliable msg.sequence_number pm'.payload]
          if s1.was_destroyed then ⟨s1, env.tail, evs⟩
          else
            ⟨{ s1 with
                sync := some ⟨sy.last_used_reliable_sn, msg.sequence_number⟩,
                pending_unreliable := none }, env.tail, evs⟩
        else
          ⟨{ s with pending_unreliable := some pm' }, env, []⟩

/-- socket.h SocketImpl::handle_sync_message (lines 450-457). -/
def handle_sync_message (s : Socket) (msg : InMessagePart) : Socket :=
  let s1 := { s with schedule_sending_acks := true }
  match s1.sync with
  | some _ => s1
  | none =>
    { s1 with
      received_message_ids := s1.received_message_ids.try_add msg.sequence_number,
      sync := some ⟨msg.sequence_number, msg.sequence_number⟩ }

/-- socket.h SocketImpl::handle_acks (lines 418-423): wholesale replacement
of the peer-acked set by the decoded value. -/
def handle_acks (s : Socket) (acks : AckSet) : Socket :=
  { s with received_message_ids_by_peer := acks }

/-- Modelled from the spec: OutMessage::encode_header_and_payload (spec
section 4.3; out_message.h is not under src/): writes the header and as
many payload bytes from the offset as fit in the remaining buffer, and
returns how many payload bytes were written. -/
def OutMessage.encode_header_and_payload (e : Encoder) (m : OutMessage)
    (offset : Nat) : Encoder × Nat :=
  if e.written + OutMessage.header_size ≤ e.capacity then
    let room := e.capacity - (e.written + OutMessage.header_size)
    let chunk := min (m.payload_size - offset) room
    (⟨e.capacity, e.written + OutMessage.header_size + chunk, e.error⟩, chunk)
  else (⟨e.capacity, e.written, true⟩, 0)

/-- socket.h SocketImpl::encode (lines 763-781): reset the fragmentation
cursor when it sits past the last byte, then encode the header and the next
chunk and advance the cursor. -/
def encodeMsg (e : Encoder) (m : OutMessage) : Encoder × OutMessage :=
  let m1 := if m.bytes_already_sent = m.payload_size
            then { m with bytes_already_sent := 0 } else m
  let r := OutMessage.encode_header_and_payload e m1 m1.bytes_already_sent
  (r.1, { m1 with bytes_already_sent := m1.bytes_already_sent + r.2 })

/-- socket.h SocketImpl::try_encode (lines 741-760): refuse unless the
header plus at least min(1, payload_size) payload bytes fit. -/
def try_encode (e : Encoder) (m : OutMessage) : Option (Encoder × OutMessage) :=
  if OutMessage.header_size + min 1 m.payload_size > e.remaining_size then none
  else some (encodeMsg e m)

/-- Result of one encode_payload pass: packed message count, encoder state,
transmit queue left for the next cycle. -/
structure EncRes where
  count : Nat
  enc : Encoder
  queue : List OutMessage
deriving DecidableEq

/-- socket.h SocketImpl::encode_payload (lines 648-686), the cycle over the
transmit queue: erase reliable messages already acked by the peer; stop at
the first message that does not fit; stop after a message whose payload was
cut short by the buffer; erase finished non-resending messages. -/
def encode_payload_go (peer : AckSet) (e : Encoder) : List OutMessage → EncRes
  | [] => ⟨0, e, []⟩
  | m :: rest =>
    if m.resend_until_acked && peer.is_in m.sequence_number then
      encode_payload_go peer e rest
    else match try_encode e m with
    | none => ⟨0, e, m :: rest⟩
    | some em =>
      if em.2.bytes_already_sent ≠ em.2.payload_size then
        ⟨1, em.1, em.2 :: rest⟩
      else if !em.2.resend_until_acked then
        let r := encode_payload_go peer em.1 rest
        ⟨r.count + 1, r.enc, r.queue⟩
      else
        let r := encode_payload_go peer em.1 rest
        ⟨r.count + 1, r.enc, em.2 :: r.queue⟩

/-- socket.h SocketImpl::encode_payload: the u16 message-count placeholder
is written first and patched afterwards (patching rewrites bytes already
counted, so only the initial two-byte put moves the write cursor). -/
def encode_payload (s : Socket) (e : Encoder) : EncRes :=
  encode_payload_go s.received_message_ids_by_peer (e.putBytes 2) s.transmit_queue

/-- The encoder start_sending builds over the 1452-byte tx buffer, after
encoding the local ack set. -/
def sendStartEncoder : Encoder :=
  Encoder.putBytes ⟨packet_size, 0, false⟩ ackSetEncodedSize

/-- Total wire cost of a queue: header plus full payload per message. -/
def queueCost : List OutMessage → Nat
  | [] => 0
  | m :: rest => OutMessage.header_size + m.payload_size + queueCost rest

/-- socket.h SocketImpl::start_sending (lines 568-613). -/
def start_sending (s : Socket) (env : List CbEffect) : Step :=
  if !s.socket_open then ⟨s, env, []⟩
  else if s.send_state ≠ SendState.pending then ⟨s, env, []⟩
  else
    let r := encode_payload s sendStartEncoder
    let s1 := { s with transmit_queue := r.queue }
    if r.count = 0 && !s1.schedule_sending_acks then
      if s1.on_flush then
        let e := env.headD CbEffect.benign
        let s2 := applyEffect s1 CbSlot.flushCb e
        if s2.was_destroyed then ⟨s2, env.tail, [Event.flushed]⟩
        else if !s2.socket_open then ⟨s2, env.tail, [Event.flushed]⟩
        else ⟨{ s2 with send_keepalive_alarm := some keepalive_period }, env.tail,
               [Event.flushed]⟩
      else ⟨{ s1 with send_keepalive_alarm := some keepalive_period }, env, []⟩
    else
      ⟨{ s1 with schedule_sending_acks := false, send_state := SendState.sending },
        env, [Event.sentPacket r.enc.written]⟩

/-- socket.h SocketImpl::construct_packet_with_one_message (lines 617-632):
the number of bytes of the produced packet (data.resize(encoder.written())).
The source asserts that try_encode succeeds. -/
def construct_packet_with_one_message (_s : Socket) (m : OutMessage) : Nat :=
  let e := (Encoder.putBytes ⟨packet_size, 0, false⟩ ackSetEncodedSize).putBytes 2
  match try_encode e m with
  | some em => em.1.written
  | none => e.written

/-- socket.h SocketImpl::sync_send_close_message (lines 635-645). -/
def sync_send_close_message (s : Socket) : List Event :=
  [Event.sentPacket (construct_packet_with_one_message s
    ⟨false, MessageType.close, 0, [], 0⟩)]

/-- socket.h SocketImpl::close (lines 342-350): cancel the pacer timer,
best-effort send one close message and close the UDP handle if open, stop
both alarms. -/
def closeImpl (s : Socket) : Socket × List Event :=
  let s1 := { s with timer_pending := false }
  let r :=
    if s1.socket_open then
      ({ s1 with socket_open := false }, sync_send_close_message s1)
    else (s1, [])
  ({ r.1 with recv_timeout_alarm := false, send_keepalive_alarm := none }, r.2)

/-- The tail of SocketImpl::handle_error and of the error branch of
on_receive: move out both registered receive callbacks and invoke each with
the error and an empty buffer (unreliable first). -/
def invokeErrCbs (s : Socket) (env : List CbEffect) (err : Err) : Step :=
  let r1 := s.on_receive_unreliable
  let r2 := s.on_receive_reliable
  let s1 := { s with on_receive_unreliable := false, on_receive_reliable := false }
  if r1 then
    let s2 := applyEffect s1 CbSlot.unrelRx (env.headD CbEffect.benign)
    if r2 then
      let s3 := applyEffect s2 CbSlot.relRx (env.tail.headD CbEffect.benign)
      ⟨s3, env.tail.tail, [Event.recvCbError false err, Event.recvCbError true err]⟩
    else ⟨s2, env.tail, [Event.recvCbError false err]⟩
  else if r2 then
    let s2 := applyEffect s1 CbSlot.relRx (env.headD CbEffect.benign)
    ⟨s2, env.tail, [Event.recvCbError true err]⟩
  else ⟨s1, env, []⟩

/-- socket.h SocketImpl::handle_error (lines 353-363): close(), then move
out and invoke both receive callbacks with the error. -/
def handle_error (s : Socket) (env : List CbEffect) (err : Err) : Step :=
  let c := closeImpl s
  let r := invokeErrCbs c.1 env err
  ⟨r.sock, r.env, c.2 ++ r.events⟩

/-- socket.h SocketImpl::handle_close_message (lines 443-447): close the
UDP handle directly, then handle_error(connection_reset). -/
def handle_close_message (s : Socket) (env : List CbEffect) : Step :=
  handle_error { s with socket_open := false } env Err.connectionReset

/-- socket.h SocketImpl::handle_message (lines 426-440): dispatch by type,
then kick the send loop unless the endpoint was destroyed.  (The C++
default branch handles an invalid decoded type tag, which the pre-decoded
MessageType cannot represent.) -/
def handle_message (s : Socket) (env : List CbEffect) (m : InMessagePart) : Step :=
  let r :=
    match m.type with
    | MessageType.sync => ⟨handle_sync_message s m, env, []⟩
    | MessageType.keep_alive => ⟨s, env, []⟩
    | MessageType.unreliable => handle_unreliable_message s env m
    | MessageType.reliable => handle_reliable_message s env m
    | MessageType.close => handle_close_message s env
  if !r.sock.was_destroyed then
    let r2 := start_sending r.sock r.env
    ⟨r2.sock, r2.env, r.events ++ r2.events⟩
  else r

/-- socket.h SocketImpl::start_receiving (lines 317-333): arm the
receive-timeout alarm and issue the next async receive. -/
def start_receiving (s : Socket) : Socket :=
  { s with recv_timeout_alarm := true }

/-- The message loop of SocketImpl::on_receive (lines 404-414): dispatch
each part, bail out if destroyed or closed, and finally re-enter the
receive loop. -/
def handle_msgs_loop (s : Socket) (env : List CbEffect) :
    List InMessagePart → Step
  | [] => ⟨start_receiving s, env, [Event.startedReceive]⟩
  | m :: rest =>
    let r := handle_message s env m
    if r.sock.was_destroyed then r
    else if !r.sock.socket_open then r
    else
      let r2 := handle_msgs_loop r.sock r.env rest
      ⟨r2.sock, r2.env, r.events ++ r2.events⟩

/-- The decode-and-dispatch tail of SocketImpl::on_receive (lines 393-414).
The packet is modelled in decoded form: none stands for a datagram the
codec rejects (parse error), some gives the decoded ack set and parts. -/
def on_receive_body (s : Socket) (env : List CbEffect)
    (packet : Option (AckSet × List InMessagePart)) : Step :=
  match packet with
  | none => handle_error s env Err.parseError
  | some p => handle_msgs_loop (handle_acks s p.1) env p.2

/-- socket.h SocketImpl::on_receive (lines 367-415): bail if destroyed;
stop the receive-timeout alarm; on an I/O error move out and invoke both
receive callbacks with it; silently discard datagrams from a source other
than the bound remote endpoint when that endpoint's address is specified;
otherwise decode and dispatch. -/
def on_receive (s : Socket) (env : List CbEffect) (error : Option Err)
    (src : Endpoint) (packet : Option (AckSet × List InMessagePart)) : Step :=
  if s.was_destroyed then ⟨s, env, []⟩
  else
    let s1 := { s with recv_timeout_alarm := false }
    match error with
    | some e => invokeErrCbs s1 env e
    | none =>
      if !s1.remote_endpoint.unspecified && src ≠ s1.remote_endpoint then
        ⟨start_receiving s1, env, [Event.startedReceive]⟩
      else on_receive_body s1 env packet

/-- socket.h SocketImpl::on_send (lines 690-738): bail if destroyed; revert
to pending; swallow operation_aborted; any other error trips an assert (and
NDEBUG builds fall through); otherwise go to waiting and arm the pacer
timer for 200*size microseconds, 0 when the remote address is loopback. -/
def on_send (s : Socket) (error : Option Err) (size : Nat) : Socket × List Event :=
  if s.was_destroyed then (s, [])
  else
    let s1 := { s with send_state := SendState.pending }
    match error with
    | some e =>
      if e = Err.operationAborted then (s1, [])
      else
        ({ s1 with send_state := SendState.waiting, timer_pending := true },
          [Event.assertFailed,
           Event.armedPacer (if s.remote_endpoint.loopback then 0 else 200 * size)])
    | none =>
      ({ s1 with send_state := SendState.waiting, timer_pending := true },
        [Event.armedPacer (if s.remote_endpoint.loopback then 0 else 200 * size)])

/-- A connected, open, synced endpoint used to instantiate theorems. -/
def baseSock : Socket :=
  { send_state := SendState.pending, socket_open := true,
    remote_endpoint := ⟨false, false, 1, 1⟩,
    transmit_queue := [], sync := some ⟨4, 0⟩,
    pending_reliable := [], pending_unreliable := none,
    schedule_sending_acks := false,
    received_message_ids_by_peer := AckSet.empty,
    received_message_ids := AckSet.empty,
    next_reliable_sn := 0, next_unreliable_sn := 1,
    on_receive_reliable := true, on_receive_unreliable := false,
    on_flush := false, recv_timeout_alarm := true,
    send_keepalive_alarm := none, timer_pending := false,
    was_destroyed := false }

def stC1 : Socket := { baseSock with sync := some ⟨0, 0⟩ }

def envC1 : List CbEffect := [⟨false, false, true⟩, ⟨false, false, true⟩]

def partsC1 : List InMessagePart :=
  [⟨MessageType.reliable, 1, 1, 0, [10]⟩, ⟨MessageType.reliable, 2, 1, 0, [20]⟩]

def stC7 : Socket := { baseSock with pending_reliable := [⟨5, 1, [42], [(0, 1)]⟩] }

def partC7 : InMessagePart := ⟨MessageType.reliable, 7, 2, 0, [9]⟩

def stC8 : Socket := { baseSock with on_receive_reliable := false }

def partC8 : InMessagePart := ⟨MessageType.reliable, 5, 1, 0, [7]⟩

def stC4 : Socket := { baseSock with on_receive_reliable := false, on_receive_unreliable := true }

def partC4 : InMessagePart := ⟨MessageType.unreliable, 9, 1, 0, [3]⟩

def stC5 : Socket := { baseSock with schedule_sending_acks := true }

def peerC6 : AckSet := ⟨true, 1, {0}⟩

def mC6a : OutMessage := ⟨true, MessageType.reliable, 2, List.replicate 2000 7, 0⟩

def mC6b : OutMessage := ⟨true, MessageType.reliable, 1, [1], 0⟩

def encC6 : Encoder := sendStartEncoder.putBytes 2

def qC6 : List OutMessage := [mC6b]

def stC2 : Socket := { baseSock with on_receive_unreliable := true }

def stC3 : Socket := { baseSock with send_keepalive_alarm := some 200 }

def stC9 : Socket := { baseSock with on_flush := true }

def stC10 : Socket := { baseSock with remote_endpoint := ⟨true, false, 0, 0⟩ }

/-- Adding an SN that can_add accepts makes it a member. -/
theorem AckSet.is_in_try_add (a : AckSet) (sn : Nat)
    (h : a.can_add sn = true) : (a.try_add sn).is_in sn = true := by
  unfold AckSet.can_add at h
  unfold AckSet.try_add AckSet.is_in
  by_cases he : a.hasEntries
  · simp only [he, Bool.not_true, Bool.false_or, Bool.and_eq_true, decide_eq_true_eq,
      Bool.not_eq_true'] at h
    obtain ⟨hbase, _⟩ := h
    have hlt : ¬ sn < a.base := by omega
    simp only [he, Bool.not_true, Bool.false_eq_true, if_false, hlt, if_false]
    by_cases hwin : sn < a.base + ackWindow
    · simp [hwin, hbase]
    · simp only [hwin, if_false]
      have h1' : a.base + (sn + 1 - ackWindow - a.base) ≤ sn := by
        unfold ackWindow at *
        omega
      have h2 : sn - (a.base + (sn + 1 - ackWindow - a.base)) = ackWindow - 1 := by
        unfold ackWindow at *
        omega
      simp [h1', h2]
  · simp [he]

theorem reliableSns_nil : reliableSns [] = [] := rfl

theorem reliableSns_append (a b : List Event) :
    reliableSns (a ++ b) = reliableSns a ++ reliableSns b :=
  List.filterMap_append a b _

theorem reliableSns_deliver (sn : Nat) (p : List Nat) (l : List Event) :
    reliableSns (Event.deliverReliable sn p :: l) = sn :: reliableSns l := rfl

/-- user_handle_reliable_msg events: one delivery if a callback was
registered, none otherwise. -/
theorem uh_events (s : Socket) (env : List CbEffect) (full : InMessageFull) :
    (user_handle_reliable_msg s env full).events
      = if s.on_receive_reliable then
          [Event.deliverReliable full.sequence_number full.payload] else [] := by
  cases hcb : s.on_receive_reliable
  · simp [user_handle_reliable_msg, hcb]
  · simp only [user_handle_reliable_msg, hcb, Bool.not_true, Bool.false_eq_true, if_false,
      if_true]
    split <;> simp

theorem uh_ok_cb (s : Socket) (env : List CbEffect) (full : InMessageFull)
    (h : (user_handle_reliable_msg s env full).ok = true) :
    s.on_receive_reliable = true := by
  cases hcb : s.on_receive_reliable
  · simp [user_handle_reliable_msg, hcb] at h
  · rfl

theorem uh_sync_ok (s : Socket) (env : List CbEffect) (full : InMessageFull)
    (sy : Sync) (hs : s.sync = some sy)
    (h : (user_handle_reliable_msg s env full).ok = true) :
    (user_handle_reliable_msg s env full).sock.sync
        = some ⟨full.sequence_number, sy.last_used_unreliable_sn⟩
      ∧ (user_handle_reliable_msg s env full).sock.received_message_ids
        = s.received_message_ids.try_add full.sequence_number
      ∧ (user_handle_reliable_msg s env full).sock.was_destroyed = false := by
  have hcb := uh_ok_cb s env full h
  simp only [user_handle_reliable_msg, hcb, Bool.not_true, Bool.false_eq_true, if_false] at h ⊢
  split at h
  · simp at h
  · rename_i hdest
    rw [if_neg hdest]
    simp only [Bool.not_eq_true] at hdest
    refine ⟨?_, ?_, ?_⟩
    · simp [applyEffect, hs]
    · simp [applyEffect]
    · simpa [applyEffect] using hdest

theorem uh_sync_notok (s : Socket) (env : List CbEffect) (full : InMessageFull)
    (sy : Sync) (hs : s.sync = some sy)
    (h : (user_handle_reliable_msg s env full).ok = false) :
    (user_handle_reliable_msg s env full).sock.sync = some sy := by
  cases hcb : s.on_receive_reliable
  · simp [user_handle_reliable_msg, hcb, hs]
  · simp only [user_handle_reliable_msg, hcb, Bool.not_true, Bool.false_eq_true, if_false] at h ⊢
    split at h
    · rename_i hdest
      rw [if_pos hdest]
      simp [applyEffect, hs]
    · simp at h

theorem uh_notok_destroyed (s : Socket) (env : List CbEffect) (full : InMessageFull)
    (hcb : s.on_receive_reliable = true)
    (h : (user_handle_reliable_msg s env full).ok = false) :
    (user_handle_reliable_msg s env full).sock.was_destroyed = true := by
  simp only [user_handle_reliable_msg, hcb, Bool.not_true, Bool.false_eq_true, if_false] at h ⊢
  split at h
  · rename_i hdest
    rw [if_pos hdest]
    exact hdest
  · simp at h

theorem pending_gcm (pm : PendingMessage) (full : InMessageFull)
    (h : pm.get_complete_message = some full) :
    full.sequence_number = pm.sequence_number ∧ full.payload = pm.payload
      ∧ pm.is_complete = true := by
  unfold PendingMessage.get_complete_message at h
  split at h
  · rename_i hc
    cases h
    exact ⟨rfl, rfl, hc⟩
  · cases h

theorem part_gcm (m : InMessagePart) (full : InMessageFull)
    (h : m.get_complete_message = some full) :
    full.sequence_number = m.sequence_number ∧ full.payload = m.payload
      ∧ m.is_complete = true := by
  unfold InMessagePart.get_complete_message at h
  split at h
  · rename_i hc
    cases h
    exact ⟨rfl, rfl, hc⟩
  · cases h

/-- replay_go delivers a run of consecutive SNs continuing from
last_used_reliable_sn + 1 and advances the counter past the ones whose
delivery completed. -/
theorem replay_go_run (rest : List PendingMessage) :
    ∀ (s : Socket) (env : List CbEffect) (kept : List PendingMessage) (sy : Sync),
    s.sync = some sy →
    ∃ k k', reliableSns (replay_go s env kept rest).events
        = List.range' (sy.last_used_reliable_sn + 1) k
      ∧ (replay_go s env kept rest).sock.sync
        = some ⟨sy.last_used_reliable_sn + k', sy.last_used_unreliable_sn⟩
      ∧ k' ≤ k ∧ k ≤ k' + 1
      ∧ ((replay_go s env kept rest).sock.was_destroyed = false → k' = k) := by
  induction rest with
  | nil =>
    intro s env kept sy hs
    refine ⟨0, 0, ?_, ?_, Nat.le_refl 0, by omega, fun _ => rfl⟩
    · simp [replay_go, reliableSns_nil]
    · simp [replay_go, hs]
  | cons pm rest' ih =>
    intro s env kept sy hs
    simp only [replay_go, hs]
    by_cases hsn : pm.sequence_number = sy.last_used_reliable_sn + 1
    · rw [if_pos hsn]
      cases hfull : pm.get_complete_message with
      | none =>
        refine ⟨0, 0, ?_, ?_, Nat.le_refl 0, by omega, fun _ => rfl⟩
        · simp [reliableSns_nil]
        · simp [hs]
      | some full =>
        obtain ⟨hfsn, hfp, hfc⟩ := pending_gcm pm full hfull
        by_cases hok : (user_handle_reliable_msg s env full).ok = true
        · simp only [hok, if_true]
          obtain ⟨hsync1, hrecv1, hnd1⟩ := uh_sync_ok s env full sy hs hok
          have hsync1' : (user_handle_reliable_msg s env full).sock.sync
              = some ⟨sy.last_used_reliable_sn + 1, sy.last_used_unreliable_sn⟩ := by
            rw [hsync1, hfsn, hsn]
          obtain ⟨k2, k2', h2evs, h2sync, h2le, h2le2, h2nd⟩ :=
            ih (user_handle_reliable_msg s env full).sock
               (user_handle_reliable_msg s env full).env kept
               ⟨sy.last_used_reliable_sn + 1, sy.last_used_unreliable_sn⟩ hsync1'
          refine ⟨k2 + 1, k2' + 1, ?_, ?_, by omega, by omega, ?_⟩
          · have hev1 : (user_handle_reliable_msg s env full).events
                = [Event.deliverReliable full.sequence_number full.payload] := by
              rw [uh_events, if_pos]
              exact (by exact_mod_cast uh_ok_cb s env full hok)
            simp only [reliableSns_append, hev1, reliableSns_deliver, reliableSns_nil]
            simp only [h2evs]
            rw [List.range'_succ]
            simp [hfsn, hsn]
          · simp only [h2sync]
            have : sy.last_used_reliable_sn + 1 + k2' = sy.last_used_reliable_sn + (k2' + 1) := by
              omega
            rw [this]
          · intro hfd
            have := h2nd hfd
            omega
        · have hokf : (user_handle_reliable_msg s env full).ok = false := by
            simpa using hok
          simp only [hokf, Bool.false_eq_true, if_false]
          have hsync1 := uh_sync_notok s env full sy hs hokf
          cases hcb : s.on_receive_reliable
          · have hev : (user_handle_reliable_msg s env full).events = [] := by
              rw [uh_events, if_neg]
              simp [hcb]
            refine ⟨0, 0, ?_, ?_, Nat.le_refl 0, by omega, fun _ => rfl⟩
            · simp [hev, reliableSns_nil]
            · simpa using hsync1
          · have hev : (user_handle_reliable_msg s env full).events
                = [Event.deliverReliable full.sequence_number full.payload] := by
              rw [uh_events, if_pos]
              simp [hcb]
            have hdest := uh_notok_destroyed s env full hcb hokf
            refine ⟨1, 0, ?_, ?_, by omega, by omega, ?_⟩
            · simp [hev, reliableSns_deliver, reliableSns_nil, hfsn, hsn, List.range'_one]
            · simpa using hsync1
            · intro hfd
              simp only [hdest] at hfd
              cases hfd
    · rw [if_neg hsn]
      exact ih s env (pm :: kept) sy hs

/-- reliable_fallthrough (find-or-create) also only delivers a consecutive
run continuing from last_used_reliable_sn + 1. -/
theorem fallthrough_run (s : Socket) (env : List CbEffect) (msg : InMessagePart)
    (sy : Sync) (hs : s.sync = some sy) :
    ∃ k k', reliableSns (reliable_fallthrough s env msg).events
        = List.range' (sy.last_used_reliable_sn + 1) k
      ∧ (reliable_fallthrough s env msg).sock.sync
        = some ⟨sy.last_used_reliable_sn + k', sy.last_used_unreliable_sn⟩
      ∧ k' ≤ k ∧ k ≤ k' + 1
      ∧ ((reliable_fallthrough s env msg).sock.was_destroyed = false → k' = k) := by
  unfold reliable_fallthrough
  by_cases hmem : (s.pending_reliable.any
      (fun pm => pm.sequence_number = msg.sequence_number)) = true
  · simp only [hmem, if_true]
    exact replay_go_run _ _ _ _ _ (by simpa using hs)
  · simp only [hmem, Bool.false_eq_true, if_false]
    exact ⟨0, 0, by simp [reliableSns_nil], by simpa using hs, Nat.le_refl 0, by omega,
      fun _ => rfl⟩

/-- handle_reliable_core delivers a run of consecutive SNs continuing from
last_used_reliable_sn + 1 and advances the counter past the delivered ones
(except a final delivery whose callback destroyed the endpoint). -/
theorem core_run (s : Socket) (env : List CbEffect) (msg : InMessagePart)
    (sy : Sync) (hs : s.sync = some sy) :
    ∃ k k', reliableSns (handle_reliable_core s env msg).events
        = List.range' (sy.last_used_reliable_sn + 1) k
      ∧ (handle_reliable_core s env msg).sock.sync
        = some ⟨sy.last_used_reliable_sn + k', sy.last_used_unreliable_sn⟩
      ∧ k' ≤ k ∧ k ≤ k' + 1
      ∧ ((handle_reliable_core s env msg).sock.was_destroyed = false → k' = k) := by
  unfold handle_reliable_core
  rw [hs]
  by_cases hca : s.received_message_ids.can_add msg.sequence_number = true
  · simp only [hca, Bool.not_true, Bool.false_eq_true, if_false]
    by_cases hsn : msg.sequence_number = sy.last_used_reliable_sn + 1
    · rw [if_pos hsn]
      cases hfullm : msg.get_complete_message with
      | none =>
        exact fallthrough_run s env msg sy hs
      | some full =>
        obtain ⟨hfsn, hfp, hfc⟩ := part_gcm msg full hfullm
        by_cases hok : (user_handle_reliable_msg s env full).ok = true
        · simp only [hok, Bool.not_true, Bool.false_eq_true, if_false]
          obtain ⟨hsync1, hrecv1, hnd1⟩ := uh_sync_ok s env full sy hs hok
          have hsync1' : (user_handle_reliable_msg s env full).sock.sync
              = some ⟨sy.last_used_reliable_sn + 1, sy.last_used_unreliable_sn⟩ := by
            rw [hsync1, hfsn, hsn]
          obtain ⟨k2, k2', h2evs, h2sync, h2le, h2le2, h2nd⟩ :=
            replay_go_run (user_handle_reliable_msg s env full).sock.pending_reliable
              (user_handle_reliable_msg s env full).sock
              (user_handle_reliable_msg s env full).env []
              ⟨sy.last_used_reliable_sn + 1, sy.last_used_unreliable_sn⟩ hsync1'
          refine ⟨k2 + 1, k2' + 1, ?_, ?_, by omega, by omega, ?_⟩
          · have hev1 : (user_handle_reliable_msg s env full).events
                = [Event.deliverReliable full.sequence_number full.payload] := by
              rw [uh_events, if_pos]
              exact (by exact_mod_cast uh_ok_cb s env full hok)
            simp only [replay_pending_messages, reliableSns_append, hev1, reliableSns_deliver,
              reliableSns_nil]
            simp only [h2evs]
            rw [List.range'_succ]
            simp [hfsn, hsn]
          · simp only [replay_pending_messages, h2sync]
            have : sy.last_used_reliable_sn + 1 + k2' = sy.last_used_reliable_sn + (k2' + 1) := by
              omega
            simp [this]
          · simp only [replay_pending_messages]
            intro hfd
            have := h2nd hfd
            omega
        · have hokf : (user_handle_reliable_msg s env full).ok = false := by
            simpa using hok
          simp only [hokf, Bool.not_false, if_true]
          have hsync1 := uh_sync_notok s env full sy hs hokf
          cases hcb : s.on_receive_reliable
          · have hev : (user_handle_reliable_msg s env full).events = [] := by
              rw [uh_events, if_neg]
              simp [hcb]
            refine ⟨0, 0, ?_, ?_, Nat.le_refl 0, by omega, fun _ => rfl⟩
            · simp [hev, reliableSns_nil]
            · simpa using hsync1
          · have hev : (user_handle_reliable_msg s env full).events
                = [Event.deliverReliable full.sequence_number full.payload] := by
              rw [uh_events, if_pos]
              simp [hcb]
            have hdest := uh_notok_destroyed s env full hcb hokf
            refine ⟨1, 0, ?_, ?_, by omega, by omega, ?_⟩
            · simp [hev, reliableSns_deliver, reliableSns_nil, hfsn, hsn, List.range'_one]
            · simpa using hsync1
            · intro hfd
              simp only [hdest] at hfd
              cases hfd
    · rw [if_neg hsn]
      exact fallthrough_run s env msg sy hs
  · have hca' : (!s.received_message_ids.can_add msg.sequence_number) = true := by
      simp [hca]
    simp only [hca', if_true]
    exact ⟨0, 0, by simp [reliableSns_nil], by simp [hs], Nat.le_refl 0, by omega,
      fun _ => rfl⟩

/-- handle_reliable_message inherits the run property. -/
theorem handle_rel_run (s0 : Socket) (env : List CbEffect) (msg : InMessagePart)
    (sy : Sync) (hs : s0.sync = some sy) :
    ∃ k k', reliableSns (handle_reliable_message s0 env msg).events
        = List.range' (sy.last_used_reliable_sn + 1) k
      ∧ (handle_reliable_message s0 env msg).sock.sync
        = some ⟨sy.last_used_reliable_sn + k', sy.last_used_unreliable_sn⟩
      ∧ k' ≤ k ∧ k ≤ k' + 1
      ∧ ((handle_reliable_message s0 env msg).sock.was_destroyed = false → k' = k) := by
  unfold handle_reliable_message
  exact core_run _ env msg sy (by simpa using hs)

/-- Processing a whole list of reliable parts delivers a run of consecutive
SNs continuing from last_used_reliable_sn + 1. -/
theorem process_run (parts : List InMessagePart) :
    ∀ (s : Socket) (env : List CbEffect) (sy : Sync), s.sync = some sy →
    ∃ k k', reliableSns (processReliableParts s env parts).events
        = List.range' (sy.last_used_reliable_sn + 1) k
      ∧ (processReliableParts s env parts).sock.sync
        = some ⟨sy.last_used_reliable_sn + k', sy.last_used_unreliable_sn⟩
      ∧ k' ≤ k ∧ k ≤ k' + 1
      ∧ ((processReliableParts s env parts).sock.was_destroyed = false → k' = k) := by
  induction parts with
  | nil =>
    intro s env sy hs
    exact ⟨0, 0, by simp [processReliableParts, reliableSns_nil],
      by simpa [processReliableParts] using hs, Nat.le_refl 0, by omega, fun _ => rfl⟩
  | cons m rest ih =>
    intro s env sy hs
    obtain ⟨k1, k1', h1evs, h1sync, h1le, h1le2, h1nd⟩ := handle_rel_run s env m sy hs
    simp only [processReliableParts]
    by_cases hstop : ((handle_reliable_message s env m).sock.was_destroyed
        || !(handle_reliable_message s env m).sock.socket_open) = true
    · rw [if_pos hstop]
      exact ⟨k1, k1', h1evs, h1sync, h1le, h1le2, h1nd⟩
    · rw [if_neg hstop]
      have hnd : (handle_reliable_message s env m).sock.was_destroyed = false := by
        cases hd : (handle_reliable_message s env m).sock.was_destroyed
        · rfl
        · exact absurd (by simp [hd]) hstop
      have hk1 : k1' = k1 := h1nd hnd
      rw [hk1] at h1sync
      obtain ⟨k2, k2', h2evs, h2sync, h2le, h2le2, h2nd⟩ :=
        ih (handle_reliable_message s env m).sock (handle_reliable_message s env m).env
          ⟨sy.last_used_reliable_sn + k1, sy.last_used_unreliable_sn⟩ h1sync
      refine ⟨k1 + k2, k1 + k2', ?_, ?_, by omega, by omega, ?_⟩
      · simp only [reliableSns_append, h1evs, h2evs]
        have hb : sy.last_used_reliable_sn + k1 + 1 = sy.last_used_reliable_sn + 1 + k1 := by
          omega
        rw [hb, List.range'_append_1]
        rw [Nat.add_comm k2 k1]
      · simp only [h2sync]
        have : sy.last_used_reliable_sn + k1 + k2' = sy.last_used_reliable_sn + (k1 + k2') := by
          omega
        rw [this]
      · intro hfd
        have := h2nd hfd
        omega

/-- The direct-delivery path of handle_reliable_core: a complete, in-order
part passing can_add with a registered callback is delivered first. -/
theorem core_direct_head (s : Socket) (env : List CbEffect) (m : InMessagePart)
    (full : InMessageFull) (sy : Sync) (hs : s.sync = some sy)
    (hcb : s.on_receive_reliable = true)
    (hca : s.received_message_ids.can_add m.sequence_number = true)
    (hsn : m.sequence_number = sy.last_used_reliable_sn + 1)
    (hgcm : m.get_complete_message = some full) :
    ∃ tl, (handle_reliable_core s env m).events
        = Event.deliverReliable m.sequence_number full.payload :: tl := by
  obtain ⟨hfsn, hfp, hfc⟩ := part_gcm m full hgcm
  unfold handle_reliable_core
  rw [hs]
  simp only [hca, Bool.not_true, Bool.false_eq_true, if_false]
  rw [if_pos hsn, hgcm]
  have hev1 : (user_handle_reliable_msg s env full).events
      = [Event.deliverReliable full.sequence_number full.payload] := by
    rw [uh_events, if_pos]
    simpa using hcb
  by_cases hok : (user_handle_reliable_msg s env full).ok = true
  · simp only [hok, Bool.not_true, Bool.false_eq_true, if_false]
    refine ⟨(replay_pending_messages (user_handle_reliable_msg s env full).sock
        (user_handle_reliable_msg s env full).env).events, ?_⟩
    show (user_handle_reliable_msg s env full).events ++ _ = _
    rw [hev1, hfsn]
    rfl
  · have hokf : (user_handle_reliable_msg s env full).ok = false := by
      simpa using hok
    simp only [hokf, Bool.not_false, if_true]
    refine ⟨[], ?_⟩
    show (user_handle_reliable_msg s env full).events = _
    rw [hev1, hfsn]

/-- C1: For every sequence of incoming reliable message parts processed by
the endpoint, the reliable receive callback is invoked only with complete
messages, in strictly increasing SN order, each SN at most once: the
delivered SNs form the consecutive run starting at
last_used_reliable_sn + 1; a part that is complete, in order, passes
can_add and finds a registered callback is delivered first; complete
messages are exactly those get_complete_message accepts; and a successful
delivery sets last_used_reliable_sn to the delivered SN and adds that SN to
the local ack set. -/
theorem C1_reliable_delivery (s : Socket) (env : List CbEffect)
    (parts : List InMessagePart) (sy : Sync) (hs : s.sync = some sy) :
    (∃ k, reliableSns (processReliableParts s env parts).events
        = List.range' (sy.last_used_reliable_sn + 1) k)
  ∧ List.Pairwise (· < ·) (reliableSns (processReliableParts s env parts).events)
  ∧ (∀ (pm : PendingMessage) (full : InMessageFull),
      pm.get_complete_message = some full → pm.is_complete = true)
  ∧ (∀ (m : InMessagePart) (full : InMessageFull),
      m.get_complete_message = some full → m.is_complete = true)
  ∧ (∀ (m : InMessagePart) (full : InMessageFull),
      s.on_receive_reliable = true →
      s.received_message_ids.can_add m.sequence_number = true →
      m.sequence_number = sy.last_used_reliable_sn + 1 →
      m.get_complete_message = some full →
      ∃ tl, (handle_reliable_message s env m).events
          = Event.deliverReliable m.sequence_number full.payload :: tl)
  ∧ (∀ full : InMessageFull, (user_handle_reliable_msg s env full).ok = true →
      (user_handle_reliable_msg s env full).sock.sync
        = some ⟨full.sequence_number, sy.last_used_unreliable_sn⟩
      ∧ (user_handle_reliable_msg s env full).sock.received_message_ids
        = s.received_message_ids.try_add full.sequence_number
      ∧ (s.received_message_ids.can_add full.sequence_number = true →
          (user_handle_reliable_msg s env full).sock.received_message_ids.is_in
            full.sequence_number = true)) := by
  obtain ⟨k, k', hevs, hsync, hle, hle2, hnd⟩ := process_run parts s env sy hs
  refine ⟨⟨k, hevs⟩, ?_, ?_, ?_, ?_, ?_⟩
  · rw [hevs]
    exact List.pairwise_lt_range' _ k
  · intro pm full h
    exact (pending_gcm pm full h).2.2
  · intro m full h
    exact (part_gcm m full h).2.2
  · intro m full hcb hca hsn hgcm
    unfold handle_reliable_message
    exact core_direct_head { s with schedule_sending_acks := true } env m full sy
      (by simpa using hs) (by simpa using hcb) (by simpa using hca) hsn hgcm
  · intro full hok
    obtain ⟨h1, h2, h3⟩ := uh_sync_ok s env full sy hs hok
    refine ⟨h1, h2, ?_⟩
    intro hca
    rw [h2]
    exact AckSet.is_in_try_add s.received_message_ids full.sequence_number hca

theorem C1_witness :
    stC1.sync = some ⟨0, 0⟩
  ∧ (∃ k, reliableSns (processReliableParts stC1 envC1 partsC1).events
        = List.range' 1 k) :=
  ⟨rfl, (C1_reliable_delivery stC1 envC1 partsC1 ⟨0, 0⟩ rfl).1⟩

theorem fallthrough_eq (s : Socket) (env : List CbEffect) (msg : InMessagePart) :
    reliable_fallthrough s env msg =
      if s.pending_reliable.any (fun pm => pm.sequence_number = msg.sequence_number) then
        replay_pending_messages
          { s with pending_reliable := mergePending msg s.pending_reliable } env
      else
        ⟨{ s with pending_reliable :=
            insertPending (PendingMessage.ofPart msg) s.pending_reliable }, env, []⟩ := rfl

theorem core_fallthrough (s : Socket) (env : List CbEffect) (msg : InMessagePart)
    (sy : Sync) (hs : s.sync = some sy)
    (hca : s.received_message_ids.can_add msg.sequence_number = true)
    (hno : msg.sequence_number ≠ sy.last_used_reliable_sn + 1
           ∨ msg.get_complete_message = none) :
    handle_reliable_core s env msg = reliable_fallthrough s env msg := by
  unfold handle_reliable_core
  rw [hs]
  simp only [hca, Bool.not_true, Bool.false_eq_true, if_false]
  rcases hno with hno | hno
  · rw [if_neg hno]
  · by_cases hsn : msg.sequence_number = sy.last_used_reliable_sn + 1
    · rw [if_pos hsn, hno]
    · rw [if_neg hsn]

/-- C7 is refuted: a part that passes sync and can_add and is not
immediately deliverable, arriving at an SN with no existing pending entry,
creates the entry but does not replay - even though a complete pending
message sits at last_used_reliable_sn + 1 with a registered callback (the
replay the claim prescribes would deliver it). -/
theorem C7_counterexample :
    stC7.sync = some ⟨4, 0⟩
  ∧ stC7.on_receive_reliable = true
  ∧ stC7.received_message_ids.can_add partC7.sequence_number = true
  ∧ partC7.sequence_number ≠ 4 + 1
  ∧ reliableSns (replay_pending_messages stC7 []).events = [5]
  ∧ (handle_reliable_message stC7 [] partC7).events = []
  ∧ (handle_reliable_message stC7 [] partC7).sock.sync = some ⟨4, 0⟩ := by
  decide

/-- C7 amended: when the part passes sync and can_add and is not an
immediately deliverable complete in-order message, the endpoint merges the
byte-range into an existing Pending In Message at that SN and then replays
pending; when no entry exists at that SN it creates one from the part and
returns without replaying. -/
theorem C7_amended (s : Socket) (env : List CbEffect) (msg : InMessagePart)
    (sy : Sync) (hs : s.sync = some sy)
    (hca : s.received_message_ids.can_add msg.sequence_number = true)
    (hno : msg.sequence_number ≠ sy.last_used_reliable_sn + 1
           ∨ msg.get_complete_message = none) :
    (s.pending_reliable.any (fun pm => pm.sequence_number = msg.sequence_number) = true →
       handle_reliable_message s env msg
         = replay_pending_messages
             { s with schedule_sending_acks := true, pending_reliable := mergePending msg s.pending_reliable } env)
  ∧ (s.pending_reliable.any (fun pm => pm.sequence_number = msg.sequence_number) = false →
       handle_reliable_message s env msg
         = ⟨{ s with schedule_sending_acks := true, pending_reliable := insertPending (PendingMessage.ofPart msg) s.pending_reliable },
             env, []⟩) := by
  have hcore := core_fallthrough { s with schedule_sending_acks := true } env msg sy
    (by simpa using hs) (by simpa using hca) hno
  unfold handle_reliable_message
  rw [hcore, fallthrough_eq]
  constructor
  · intro hfound
    rw [if_pos (by simpa using hfound)]
  · intro hfound
    rw [if_neg (by simp [hfound])]

theorem replay_go_nocb (rest : List PendingMessage) :
    ∀ (s : Socket) (env : List CbEffect) (kept : List PendingMessage),
    s.on_receive_reliable = false →
    replay_go s env kept rest = ⟨{ s with pending_reliable := kept.reverse ++ rest }, env, []⟩ := by
  induction rest with
  | nil =>
    intro s env kept hcb
    simp [replay_go]
  | cons pm rest' ih =>
    intro s env kept hcb
    rcases hsy : s.sync with _ | sy
    · simp [replay_go, hsy]
    · simp only [replay_go, hsy]
      by_cases hsn : pm.sequence_number = sy.last_used_reliable_sn + 1
      · rw [if_pos hsn]
        cases hfull : pm.get_complete_message with
        | none => simp [hsy]
        | some full =>
          have huh : user_handle_reliable_msg s env full = ⟨false, s, env, []⟩ := by
            simp [user_handle_reliable_msg, hcb]
          simp [huh, hsy]
      · rw [if_neg hsn]
        rw [ih s env (pm :: kept) hcb]
        simp [hsy]

theorem replay_nocb (s : Socket) (env : List CbEffect)
    (hcb : s.on_receive_reliable = false) :
    replay_pending_messages s env = ⟨s, env, []⟩ := by
  unfold replay_pending_messages
  rw [replay_go_nocb s.pending_reliable s env [] hcb]
  simp

/-- C8 is refuted: with no reliable callback registered, a freshly arrived
complete in-order reliable message is discarded - it is not added to the
pending-reliable map - while the claim asserts it is queued there. -/
theorem C8_counterexample :
    stC8.on_receive_reliable = false
  ∧ stC8.sync = some ⟨4, 0⟩
  ∧ partC8.sequence_number = 4 + 1
  ∧ partC8.get_complete_message ≠ none
  ∧ (handle_reliable_message stC8 [] partC8).events = []
  ∧ (handle_reliable_message stC8 [] partC8).sock.sync = some ⟨4, 0⟩
  ∧ (handle_reliable_message stC8 [] partC8).sock.pending_reliable = [] := by
  decide

theorem core_nocb_drop (s : Socket) (env : List CbEffect) (msg : InMessagePart)
    (sy : Sync) (hs : s.sync = some sy) (hcb : s.on_receive_reliable = false)
    (hsn : msg.sequence_number = sy.last_used_reliable_sn + 1)
    (hc : msg.get_complete_message ≠ none) :
    handle_reliable_core s env msg = ⟨s, env, []⟩ := by
  unfold handle_reliable_core
  rw [hs]
  by_cases hca : s.received_message_ids.can_add msg.sequence_number = true
  · simp only [hca, Bool.not_true, Bool.false_eq_true, if_false]
    rw [if_pos hsn]
    cases hgcm : msg.get_complete_message with
    | none => exact absurd hgcm hc
    | some full =>
      have huh : user_handle_reliable_msg s env full = ⟨false, s, env, []⟩ := by
        simp [user_handle_reliable_msg, hcb]
      simp [huh]
  · have hca' : (!s.received_message_ids.can_add msg.sequence_number) = true := by
      simp [hca]
    simp only [hca', if_true]

/-- C8 amended: if no reliable receive callback is registered when a
reliable message becomes deliverable, the message is not delivered and
last_used_reliable_sn is not advanced; a message already held in the
pending map stays there (replay leaves the state untouched), but a freshly
arrived in-order complete message is dropped without being added to the
pending map - it is not acked, so it is left to peer retransmission. -/
theorem C8_amended (s : Socket) (env : List CbEffect) (msg : InMessagePart)
    (sy : Sync) (hs : s.sync = some sy) (hcb : s.on_receive_reliable = false) :
    (msg.sequence_number = sy.last_used_reliable_sn + 1 →
      msg.get_complete_message ≠ none →
      handle_reliable_message s env msg = ⟨{ s with schedule_sending_acks := true }, env, []⟩)
  ∧ replay_pending_messages s env = ⟨s, env, []⟩ := by
  constructor
  · intro hsn hc
    unfold handle_reliable_message
    exact core_nocb_drop { s with schedule_sending_acks := true } env msg sy
      (by simpa using hs) (by simpa using hcb) hsn hc
  · exact replay_nocb s env hcb

theorem C8_witness :
    stC8.sync = some ⟨4, 0⟩ ∧ stC8.on_receive_reliable = false
  ∧ (handle_reliable_message stC8 [] partC8)
      = ⟨{ stC8 with schedule_sending_acks := true }, [], []⟩ :=
  ⟨rfl, rfl, (C8_amended stC8 [] partC8 ⟨4, 0⟩ rfl rfl).1 rfl (by decide)⟩

theorem C7_witness :
    stC7.sync = some ⟨4, 0⟩
  ∧ stC7.received_message_ids.can_add partC7.sequence_number = true
  ∧ (handle_reliable_message stC7 [] partC7)
      = ⟨{ stC7 with schedule_sending_acks := true,
                     pending_reliable := insertPending (PendingMessage.ofPart partC7) stC7.pending_reliable },
          [], []⟩ :=
  ⟨rfl, by decide,
    (C7_amended stC7 [] partC7 ⟨4, 0⟩ rfl (by decide) (Or.inl (by decide))).2 (by decide)⟩

theorem u_eq_nocb (s : Socket) (env : List CbEffect) (msg : InMessagePart)
    (hcb : s.on_receive_unreliable = false) :
    handle_unreliable_message s env msg = ⟨s, env, []⟩ := by
  simp [handle_unreliable_message, hcb]

theorem u_eq_stale (s : Socket) (env : List CbEffect) (msg : InMessagePart)
    (sy : Sync) (hcb : s.on_receive_unreliable = true) (hs : s.sync = some sy)
    (hle : msg.sequence_number ≤ sy.last_used_unreliable_sn) :
    handle_unreliable_message s env msg = ⟨s, env, []⟩ := by
  unfold handle_unreliable_message
  simp only [hcb, Bool.not_true, Bool.false_eq_true, if_false, hs]
  rw [if_pos hle]

theorem u_complete_facts (s : Socket) (env : List CbEffect) (msg : InMessagePart)
    (sy : Sync) (hcb : s.on_receive_unreliable = true) (hs : s.sync = some sy)
    (hgt : sy.last_used_unreliable_sn < msg.sequence_number)
    (hcomp : msg.is_complete = true) :
    (handle_unreliable_message s env msg).events
        = [Event.deliverUnreliable msg.sequence_number msg.payload]
  ∧ ((handle_unreliable_message s env msg).sock.was_destroyed = false →
      (handle_unreliable_message s env msg).sock.sync
          = some ⟨sy.last_used_reliable_sn, msg.sequence_number⟩
      ∧ (handle_unreliable_message s env msg).sock.pending_unreliable = none) := by
  unfold handle_unreliable_message
  simp only [hcb, Bool.not_true, Bool.false_eq_true, if_false, hs]
  rw [if_neg (by omega), if_pos hcomp]
  split
  · rename_i hdest
    exact ⟨rfl, fun hfd => Bool.noConfusion (hdest.symm.trans hfd)⟩
  · exact ⟨rfl, fun _ => ⟨rfl, rfl⟩⟩

theorem u_frag_none (s : Socket) (env : List CbEffect) (msg : InMessagePart)
    (sy : Sync) (hcb : s.on_receive_unreliable = true) (hs : s.sync = some sy)
    (hgt : sy.last_used_unreliable_sn < msg.sequence_number)
    (hcomp : msg.is_complete = false) (hslot : s.pending_unreliable = none) :
    handle_unreliable_message s env msg
      = ⟨{ s with pending_unreliable := some (PendingMessage.ofPart msg) }, env, []⟩ := by
  unfold handle_unreliable_message
  simp only [hcb, Bool.not_true, Bool.false_eq_true, if_false, hs]
  rw [if_neg (by omega), if_neg (by simp [hcomp])]
  simp only [hslot]

theorem u_frag_lt (s : Socket) (env : List CbEffect) (msg : InMessagePart)
    (sy : Sync) (pm : PendingMessage)
    (hcb : s.on_receive_unreliable = true) (hs : s.sync = some sy)
    (hgt : sy.last_used_unreliable_sn < msg.sequence_number)
    (hcomp : msg.is_complete = false) (hslot : s.pending_unreliable = some pm)
    (hlt : pm.sequence_number < msg.sequence_number) :
    handle_unreliable_message s env msg
      = ⟨{ s with pending_unreliable := some (PendingMessage.ofPart msg) }, env, []⟩ := by
  unfold handle_unreliable_message
  simp only [hcb, Bool.not_true, Bool.false_eq_true, if_false, hs]
  rw [if_neg (by omega), if_neg (by simp [hcomp])]
  simp only [hslot]
  rw [if_pos hlt]

theorem u_frag_gt (s : Socket) (env : List CbEffect) (msg : InMessagePart)
    (sy : Sync) (pm : PendingMessage)
    (hcb : s.on_receive_unreliable = true) (hs : s.sync = some sy)
    (hgt : sy.last_used_unreliable_sn < msg.sequence_number)
    (hcomp : msg.is_complete = false) (hslot : s.pending_unreliable = some pm)
    (hgt2 : msg.sequence_number < pm.sequence_number) :
    handle_unreliable_message s env msg = ⟨s, env, []⟩ := by
  unfold handle_unreliable_message
  simp only [hcb, Bool.not_true, Bool.false_eq_true, if_false, hs]
  rw [if_neg (by omega), if_neg (by simp [hcomp])]
  simp only [hslot]
  rw [if_neg (by omega), if_pos (by omega)]

theorem u_frag_eq_incomplete (s : Socket) (env : List CbEffect) (msg : InMessagePart)
    (sy : Sync) (pm : PendingMessage)
    (hcb : s.on_receive_unreliable = true) (hs : s.sync = some sy)
    (hgt : sy.last_used_unreliable_sn < msg.sequence_number)
    (hcomp : msg.is_complete = false) (hslot : s.pending_unreliable = some pm)
    (heq : pm.sequence_number = msg.sequence_number)
    (hpc : (pm.update_payload msg.chunk_start msg.payload).is_complete = false) :
    handle_unreliable_message s env msg
      = ⟨{ s with pending_unreliable := some (pm.update_payload msg.chunk_start msg.payload) },
          env, []⟩ := by
  unfold handle_unreliable_message
  simp only [hcb, Bool.not_true, Bool.false_eq_true, if_false, hs]
  rw [if_neg (by omega), if_neg (by simp [hcomp])]
  simp only [hslot]
  rw [if_neg (by omega), if_neg (by omega), if_neg (by simp [hpc])]

theorem u_frag_eq_complete (s : Socket) (env : List CbEffect) (msg : InMessagePart)
    (sy : Sync) (pm : PendingMessage)
    (hcb : s.on_receive_unreliable = true) (hs : s.sync = some sy)
    (hgt : sy.last_used_unreliable_sn < msg.sequence_number)
    (hcomp : msg.is_complete = false) (hslot : s.pending_unreliable = some pm)
    (heq : pm.sequence_number = msg.sequence_number)
    (hpc : (pm.update_payload msg.chunk_start msg.payload).is_complete = true) :
    (handle_unreliable_message s env msg).events
        = [Event.deliverUnreliable msg.sequence_number
            (pm.update_payload msg.chunk_start msg.payload).payload]
  ∧ ((handle_unreliable_message s env msg).sock.was_destroyed = false →
      (handle_unreliable_message s env msg).sock.sync
          = some ⟨sy.last_used_reliable_sn, msg.sequence_number⟩
      ∧ (handle_unreliable_message s env msg).sock.pending_unreliable = none) := by
  unfold handle_unreliable_message
  simp only [hcb, Bool.not_true, Bool.false_eq_true, if_false, hs]
  rw [if_neg (by omega), if_neg (by simp [hcomp])]
  simp only [hslot]
  rw [if_neg (by omega), if_neg (by omega), if_pos hpc]
  split
  · rename_i hdest
    exact ⟨rfl, fun hfd => Bool.noConfusion (hdest.symm.trans hfd)⟩
  · exact ⟨rfl, fun _ => ⟨rfl, rfl⟩⟩

/-- C4: The unreliable receive callback is invoked only for SNs strictly
greater than last_used_unreliable_sn, and only for the SN of the incoming
part; a successful delivery sets last_used_unreliable_sn to the delivered
SN and clears the single pending slot; the single-slot fragment buffer
keeps only the largest-SN fragmented message: replace when the slot is
empty or the incoming SN is larger, discard when it is smaller, merge byte
ranges when equal, delivering if complete after the merge; absent callback
or stale SNs discard the part. -/
theorem C4_unreliable (s : Socket) (env : List CbEffect) (msg : InMessagePart)
    (sy : Sync) (hs : s.sync = some sy) :
    ((handle_unreliable_message s env msg).events = []
      ∨ (sy.last_used_unreliable_sn < msg.sequence_number
         ∧ ∃ p, (handle_unreliable_message s env msg).events
             = [Event.deliverUnreliable msg.sequence_number p]))
  ∧ ((handle_unreliable_message s env msg).events ≠ [] →
      (handle_unreliable_message s env msg).sock.was_destroyed = false →
      (handle_unreliable_message s env msg).sock.sync
          = some ⟨sy.last_used_reliable_sn, msg.sequence_number⟩
        ∧ (handle_unreliable_message s env msg).sock.pending_unreliable = none)
  ∧ (s.on_receive_unreliable = true → sy.last_used_unreliable_sn < msg.sequence_number →
      msg.is_complete = false →
      (s.pending_unreliable = none →
        handle_unreliable_message s env msg
          = ⟨{ s with pending_unreliable := some (PendingMessage.ofPart msg) }, env, []⟩)
      ∧ (∀ pm, s.pending_unreliable = some pm →
          (pm.sequence_number < msg.sequence_number →
            handle_unreliable_message s env msg
              = ⟨{ s with pending_unreliable := some (PendingMessage.ofPart msg) }, env, []⟩)
          ∧ (msg.sequence_number < pm.sequence_number →
            handle_unreliable_message s env msg = ⟨s, env, []⟩)
          ∧ (pm.sequence_number = msg.sequence_number →
            ((pm.update_payload msg.chunk_start msg.payload).is_complete = false →
              handle_unreliable_message s env msg
                = ⟨{ s with pending_unreliable := some (pm.update_payload msg.chunk_start msg.payload) }, env, []⟩)
            ∧ ((pm.update_payload msg.chunk_start msg.payload).is_complete = true →
              (handle_unreliable_message s env msg).events
                = [Event.deliverUnreliable msg.sequence_number
                    (pm.update_payload msg.chunk_start msg.payload).payload]))))
  ∧ (s.on_receive_unreliable = false → handle_unreliable_message s env msg = ⟨s, env, []⟩)
  ∧ (msg.sequence_number ≤ sy.last_used_unreliable_sn →
      handle_unreliable_message s env msg = ⟨s, env, []⟩) := by
  refine ⟨?_, ?_, ?_, ?_, ?_⟩
  · cases hcb : s.on_receive_unreliable
    · rw [u_eq_nocb s env msg hcb]
      exact Or.inl rfl
    · by_cases hle : msg.sequence_number ≤ sy.last_used_unreliable_sn
      · rw [u_eq_stale s env msg sy hcb hs hle]
        exact Or.inl rfl
      · have hgt : sy.last_used_unreliable_sn < msg.sequence_number := by omega
        cases hcomp : msg.is_complete
        · cases hslot : s.pending_unreliable with
          | none =>
            rw [u_frag_none s env msg sy hcb hs hgt hcomp hslot]
            exact Or.inl rfl
          | some pm =>
            rcases Nat.lt_trichotomy pm.sequence_number msg.sequence_number with hl | he | hg
            · rw [u_frag_lt s env msg sy pm hcb hs hgt hcomp hslot hl]
              exact Or.inl rfl
            · cases hpc : (pm.update_payload msg.chunk_start msg.payload).is_complete
              · rw [u_frag_eq_incomplete s env msg sy pm hcb hs hgt hcomp hslot he hpc]
                exact Or.inl rfl
              · exact Or.inr ⟨hgt, _,
                  (u_frag_eq_complete s env msg sy pm hcb hs hgt hcomp hslot he hpc).1⟩
            · rw [u_frag_gt s env msg sy pm hcb hs hgt hcomp hslot hg]
              exact Or.inl rfl
        · exact Or.inr ⟨hgt, msg.payload,
            (u_complete_facts s env msg sy hcb hs hgt hcomp).1⟩
  · intro hne hfd
    cases hcb : s.on_receive_unreliable
    · rw [u_eq_nocb s env msg hcb] at hne
      exact absurd rfl hne
    · by_cases hle : msg.sequence_number ≤ sy.last_used_unreliable_sn
      · rw [u_eq_stale s env msg sy hcb hs hle] at hne
        exact absurd rfl hne
      · have hgt : sy.last_used_unreliable_sn < msg.sequence_number := by omega
        cases hcomp : msg.is_complete
        · cases hslot : s.pending_unreliable with
          | none =>
            rw [u_frag_none s env msg sy hcb hs hgt hcomp hslot] at hne
            exact absurd rfl hne
          | some pm =>
            rcases Nat.lt_trichotomy pm.sequence_number msg.sequence_number with hl | he | hg
            · rw [u_frag_lt s env msg sy pm hcb hs hgt hcomp hslot hl] at hne
              exact absurd rfl hne
            · cases hpc : (pm.update_payload msg.chunk_start msg.payload).is_complete
              · rw [u_frag_eq_incomplete s env msg sy pm hcb hs hgt hcomp hslot he hpc] at hne
                exact absurd rfl hne
              · exact (u_frag_eq_complete s env msg sy pm hcb hs hgt hcomp hslot he hpc).2 hfd
            · rw [u_frag_gt s env msg sy pm hcb hs hgt hcomp hslot hg] at hne
              exact absurd rfl hne
        · exact (u_complete_facts s env msg sy hcb hs hgt hcomp).2 hfd
  · intro hcb hgt hcomp
    refine ⟨fun hslot => u_frag_none s env msg sy hcb hs hgt hcomp hslot, ?_⟩
    intro pm hslot
    refine ⟨fun hl => u_frag_lt s env msg sy pm hcb hs hgt hcomp hslot hl,
      fun hg => u_frag_gt s env msg sy pm hcb hs hgt hcomp hslot hg, fun he => ⟨?_, ?_⟩⟩
    · intro hpc
      exact u_frag_eq_incomplete s env msg sy pm hcb hs hgt hcomp hslot he hpc
    · intro hpc
      exact (u_frag_eq_complete s env msg sy pm hcb hs hgt hcomp hslot he hpc).1
  · intro hcb
    exact u_eq_nocb s env msg hcb
  · intro hle
    cases hcb : s.on_receive_unreliable
    · exact u_eq_nocb s env msg hcb
    · exact u_eq_stale s env msg sy hcb hs hle

theorem C4_witness :
    stC4.sync = some ⟨4, 0⟩
  ∧ ((handle_unreliable_message stC4 [] partC4).events = []
      ∨ ((0 : Nat) < partC4.sequence_number
         ∧ ∃ p, (handle_unreliable_message stC4 [] partC4).events
             = [Event.deliverUnreliable partC4.sequence_number p])) :=
  ⟨rfl, (C4_unreliable stC4 [] partC4 ⟨4, 0⟩ rfl).1⟩

theorem putBytes_le (e : Encoder) (n : Nat) (h : e.written ≤ e.capacity) :
    (e.putBytes n).written ≤ e.capacity ∧ (e.putBytes n).capacity = e.capacity := by
  unfold Encoder.putBytes
  split
  · rename_i hfit
    exact ⟨hfit, rfl⟩
  · exact ⟨h, rfl⟩

theorem ehp_le (e : Encoder) (m : OutMessage) (off : Nat) (h : e.written ≤ e.capacity) :
    (OutMessage.encode_header_and_payload e m off).1.written ≤ e.capacity
  ∧ (OutMessage.encode_header_and_payload e m off).1.capacity = e.capacity := by
  unfold OutMessage.encode_header_and_payload
  split
  · rename_i hfit
    refine ⟨?_, rfl⟩
    simp only []
    omega
  · exact ⟨h, rfl⟩

theorem encodeMsg_le (e : Encoder) (m : OutMessage) (h : e.written ≤ e.capacity) :
    (encodeMsg e m).1.written ≤ e.capacity ∧ (encodeMsg e m).1.capacity = e.capacity := by
  unfold encodeMsg
  exact ehp_le e _ _ h

theorem try_encode_le (e : Encoder) (m : OutMessage) (em : Encoder × OutMessage)
    (h : e.written ≤ e.capacity) (he : try_encode e m = some em) :
    em.1.written ≤ e.capacity ∧ em.1.capacity = e.capacity := by
  unfold try_encode at he
  split at he
  · cases he
  · cases he
    exact encodeMsg_le e m h

theorem encode_payload_go_le (q : List OutMessage) :
    ∀ (peer : AckSet) (e : Encoder), e.written ≤ e.capacity →
    (encode_payload_go peer e q).enc.written ≤ e.capacity
  ∧ (encode_payload_go peer e q).enc.capacity = e.capacity := by
  induction q with
  | nil =>
    intro peer e h
    exact ⟨h, rfl⟩
  | cons m rest ih =>
    intro peer e h
    by_cases hacked : (m.resend_until_acked && peer.is_in m.sequence_number) = true
    · simp only [encode_payload_go, hacked, if_true]
      exact ih peer e h
    · rcases hte : try_encode e m with _ | em
      · simp only [encode_payload_go, hacked, Bool.false_eq_true, if_false, hte]
        exact ⟨h, trivial⟩
      · obtain ⟨h1, h2⟩ := try_encode_le e m em h hte
        simp only [encode_payload_go, hacked, Bool.false_eq_true, if_false, hte]
        by_cases hexh : em.2.bytes_already_sent ≠ em.2.payload_size
        · rw [if_pos hexh]
          exact ⟨h1, h2⟩
        · rw [if_neg hexh]
          have h1' : em.1.written ≤ em.1.capacity := by omega
          obtain ⟨h3, h4⟩ := ih peer em.1 h1'
          split
          · dsimp only
            exact ⟨by omega, by omega⟩
          · dsimp only
            exact ⟨by omega, by omega⟩

/-- C5: every packet the endpoint emits is at most packet_size = 1452
bytes: the send loop encodes into the 1452-byte tx buffer and sends
exactly encoder.written() bytes, construct_packet_with_one_message
resizes its 1452-byte buffer down to encoder.written(), and try_encode
refuses a message precisely when its header plus at least min(1,
payload_size) payload bytes do not fit in the remaining space. -/
theorem C5_packet_size (s : Socket) (env : List CbEffect) (n : Nat) :
    (Event.sentPacket n ∈ (start_sending s env).events → n ≤ packet_size)
  ∧ (∀ m : OutMessage, construct_packet_with_one_message s m ≤ packet_size)
  ∧ (∀ (e : Encoder) (m : OutMessage),
      (OutMessage.header_size + min 1 m.payload_size > e.remaining_size
        ↔ try_encode e m = none)) := by
  refine ⟨?_, ?_, ?_⟩
  · intro hmem
    unfold start_sending at hmem
    split at hmem
    · cases hmem
    · split at hmem
      · cases hmem
      · have hinit : sendStartEncoder.written ≤ sendStartEncoder.capacity := by decide
        have hcap : sendStartEncoder.capacity = packet_size := by decide
        have h2 : (sendStartEncoder.putBytes 2).written ≤ sendStartEncoder.capacity
            ∧ (sendStartEncoder.putBytes 2).capacity = sendStartEncoder.capacity :=
          putBytes_le sendStartEncoder 2 hinit
        have h3 := encode_payload_go_le s.transmit_queue s.received_message_ids_by_peer
          (sendStartEncoder.putBytes 2) (by omega)
        dsimp only at hmem
        split at hmem
        · split at hmem
          · split at hmem
            · simp at hmem
            · split at hmem
              · simp at hmem
              · simp at hmem
          · cases hmem
        · simp only [List.mem_singleton] at hmem
          cases hmem
          unfold encode_payload
          omega
  · intro m
    unfold construct_packet_with_one_message
    dsimp only
    have hinit : ((Encoder.putBytes ⟨packet_size, 0, false⟩ ackSetEncodedSize).putBytes 2).written
        ≤ ((Encoder.putBytes ⟨packet_size, 0, false⟩ ackSetEncodedSize).putBytes 2).capacity := by
      decide
    have hcap : ((Encoder.putBytes ⟨packet_size, 0, false⟩ ackSetEncodedSize).putBytes 2).capacity
        = packet_size := by decide
    rcases hte : try_encode ((Encoder.putBytes ⟨packet_size, 0, false⟩ ackSetEncodedSize).putBytes 2) m
      with _ | em
    · simp only [hte]
      omega
    · obtain ⟨h1, h2⟩ := try_encode_le _ m em hinit hte
      simp only [hte]
      omega
  · intro e m
    unfold try_encode
    constructor
    · intro hbig
      rw [if_pos hbig]
    · intro hnone
      by_contra hc
      rw [if_neg hc] at hnone
      cases hnone

theorem encodeMsg_full (e : Encoder) (m : OutMessage)
    (hroom : e.written + OutMessage.header_size + m.payload_size ≤ e.capacity)
    (hcur : m.bytes_already_sent ≤ m.payload_size) :
    (encodeMsg e m).2.bytes_already_sent = (encodeMsg e m).2.payload_size
  ∧ (encodeMsg e m).1.written ≤ e.written + OutMessage.header_size + m.payload_size
  ∧ (encodeMsg e m).1.capacity = e.capacity
  ∧ (encodeMsg e m).2.sequence_number = m.sequence_number
  ∧ (encodeMsg e m).2.resend_until_acked = m.resend_until_acked := by
  unfold encodeMsg OutMessage.encode_header_and_payload OutMessage.payload_size at *
  by_cases hreset : m.bytes_already_sent = m.payload.length
  · rw [if_pos (by simpa using hreset)]
    dsimp only
    rw [if_pos (by omega)]
    dsimp only
    refine ⟨by omega, by omega, rfl, rfl, rfl⟩
  · rw [if_neg (by simpa using hreset)]
    dsimp only
    rw [if_pos (by omega)]
    dsimp only
    refine ⟨by omega, by omega, rfl, rfl, rfl⟩

theorem encode_payload_go_full (q : List OutMessage) :
    ∀ (e : Encoder) (peer : AckSet),
    (∀ m ∈ q, m.bytes_already_sent ≤ m.payload_size) →
    e.written + queueCost q ≤ e.capacity →
    (∀ m' ∈ (encode_payload_go peer e q).queue,
        ¬(m'.resend_until_acked = true ∧ peer.is_in m'.sequence_number = true))
  ∧ (encode_payload_go peer e q).count
      = (q.filter (fun m => !(m.resend_until_acked && peer.is_in m.sequence_number))).length
  ∧ (∀ m ∈ q, m.resend_until_acked = true → peer.is_in m.sequence_number = false →
      ∃ m' ∈ (encode_payload_go peer e q).queue,
        m'.sequence_number = m.sequence_number ∧ m'.resend_until_acked = true) := by
  induction q with
  | nil =>
    intro e peer hcur hcap
    refine ⟨?_, rfl, ?_⟩
    · intro m' hm'
      simp [encode_payload_go] at hm'
    · intro m hm
      simp at hm
  | cons m rest ih =>
    intro e peer hcur hcap
    have hcurm : m.bytes_already_sent ≤ m.payload_size := hcur m (List.mem_cons_self m rest)
    have hcurr : ∀ x ∈ rest, x.bytes_already_sent ≤ x.payload_size :=
      fun x hx => hcur x (List.mem_cons_of_mem m hx)
    have hcostm : OutMessage.header_size + m.payload_size + queueCost rest = queueCost (m :: rest) :=
      rfl
    by_cases hacked : (m.resend_until_acked && peer.is_in m.sequence_number) = true
    · simp only [encode_payload_go, hacked, if_true]
      obtain ⟨h1, h2, h3⟩ := ih e peer hcurr (by unfold queueCost at hcap; omega)
      refine ⟨h1, ?_, ?_⟩
      · rw [h2, List.filter_cons, if_neg (by simp [hacked])]
      · intro x hx hres hnin
        rcases List.mem_cons.mp hx with hx | hx
        · rw [hx] at hres hnin
          rw [hres] at hacked
          simp [hnin] at hacked
        · exact h3 x hx hres hnin
    · have hte : try_encode e m = some (encodeMsg e m) := by
        unfold try_encode
        rw [if_neg]
        unfold Encoder.remaining_size
        unfold queueCost at hcap
        have : min 1 m.payload_size ≤ m.payload_size := by omega
        omega
      obtain ⟨hf1, hf2, hf3, hf4, hf5⟩ := encodeMsg_full e m
        (by unfold queueCost at hcap; omega) hcurm
      have hnexh : ¬((encodeMsg e m).2.bytes_already_sent ≠ (encodeMsg e m).2.payload_size) := by
        simp [hf1]
      obtain ⟨h1, h2, h3⟩ := ih (encodeMsg e m).1 peer hcurr
        (by unfold queueCost at hcap; omega)
      simp only [encode_payload_go, hacked, Bool.false_eq_true, if_false, hte]
      rw [if_neg hnexh]
      by_cases hres : m.resend_until_acked = true
      · have hresm : (!(encodeMsg e m).2.resend_until_acked) = false := by
          rw [hf5, hres]
          rfl
        simp only [hresm, Bool.false_eq_true, if_false]
        refine ⟨?_, ?_, ?_⟩
        · intro m' hm'
          rcases List.mem_cons.mp hm' with hm' | hm'
          · subst hm'
            intro hcon
            rw [hf5, hf4] at hcon
            rw [hcon.1] at hacked
            simp [hcon.2] at hacked
          · exact h1 m' hm'
        · dsimp only
          rw [h2]
          simp only [List.filter_cons]
          rw [if_pos (by simp [hacked])]
          simp
        · intro x hx hxres hxnin
          rcases List.mem_cons.mp hx with hx | hx
          · refine ⟨(encodeMsg e m).2, List.mem_cons_self _ _, ?_, ?_⟩
            · rw [hf4, hx]
            · rw [hf5, ← hx, hxres]
          · obtain ⟨m', hm', he1, he2⟩ := h3 x hx hxres hxnin
            exact ⟨m', List.mem_cons_of_mem _ hm', he1, he2⟩
      · have hresf : m.resend_until_acked = false := by
          cases hb : m.resend_until_acked
          · rfl
          · exact absurd hb hres
        have hresm : (!(encodeMsg e m).2.resend_until_acked) = true := by
          rw [hf5, hresf]
          rfl
        simp only [hresm, if_true]
        refine ⟨h1, ?_, ?_⟩
        · dsimp only
          rw [h2]
          simp only [List.filter_cons]
          rw [if_pos (by simp [hacked])]
          simp
        · intro x hx hxres hxnin
          rcases List.mem_cons.mp hx with hx | hx
          · rw [hx, hresf] at hxres
            cases hxres
          · exact h3 x hx hxres hxnin

theorem C5_witness :
    Event.sentPacket 15 ∈ (start_sending stC5 []).events ∧ 15 ≤ packet_size :=
  ⟨by decide, (C5_packet_size stC5 [] 15).1 (by decide)⟩

/-- C6 amended: handle_acks replaces the peer-acked set wholesale; an
outbound reliable message is retained in the queue while unacked; on an
encode_payload pass that visits every message (the packet buffer holds the
whole queue), every reliable message whose SN is in the peer-acked set is
erased without being encoded (the packed count covers exactly the other
messages), so it is absent from the queue handed to the next cycle. -/
theorem C6_retained_until_acked (peer : AckSet) (e : Encoder) (q : List OutMessage)
    (hcur : ∀ m ∈ q, m.bytes_already_sent ≤ m.payload_size)
    (hcap : e.written + queueCost q ≤ e.capacity) :
    (∀ (s : Socket) (a : AckSet), handle_acks s a = { s with received_message_ids_by_peer := a })
  ∧ (∀ m' ∈ (encode_payload_go peer e q).queue,
      ¬(m'.resend_until_acked = true ∧ peer.is_in m'.sequence_number = true))
  ∧ (encode_payload_go peer e q).count
      = (q.filter (fun m => !(m.resend_until_acked && peer.is_in m.sequence_number))).length
  ∧ (∀ m ∈ q, m.resend_until_acked = true → peer.is_in m.sequence_number = false →
      ∃ m' ∈ (encode_payload_go peer e q).queue,
        m'.sequence_number = m.sequence_number ∧ m'.resend_until_acked = true) := by
  obtain ⟨h1, h2, h3⟩ := encode_payload_go_full q e peer hcur hcap
  exact ⟨fun s a => rfl, h1, h2, h3⟩

/-- C6 is refuted as stated: when the pass stops early because the packet
buffer is exhausted mid-message, a reliable message whose SN the peer has
acked survives the pass - it is not erased by the next encode_payload pass
and is still in the queue on the next send cycle. -/
theorem mC6a_size : mC6a.payload_size = 2000 := by
  show (List.replicate 2000 7).length = 2000
  exact List.length_replicate 2000 7

theorem encodeMsg_C6a :
    encodeMsg encC6 mC6a = (⟨1452, 1452, false⟩, { mC6a with bytes_already_sent := 1425 }) := by
  unfold encodeMsg OutMessage.encode_header_and_payload
  rw [if_neg (by rw [mC6a_size]; decide)]
  dsimp only
  rw [if_pos (by decide)]
  have hchunk : min (mC6a.payload_size - mC6a.bytes_already_sent)
      (encC6.capacity - (encC6.written + OutMessage.header_size)) = 1425 := by
    rw [mC6a_size]
    decide
  rw [hchunk]
  have h3 : encC6.capacity = 1452 := by decide
  have h4 : encC6.written = 15 := by decide
  have h6 : encC6.error = false := by decide
  rw [h3, h4, h6]
  rfl

/-- C6 is refuted as stated: when the pass stops early because the packet
buffer is exhausted mid-message, a reliable message whose SN the peer has
acked survives the pass - it is not erased by the next encode_payload pass
and is still in the queue on the next send cycle. -/
theorem C6_counterexample :
    mC6b.resend_until_acked = true
  ∧ peerC6.is_in mC6b.sequence_number = true
  ∧ (encode_payload_go peerC6 encC6 [mC6a, mC6b]).queue.any
      (fun m => m.resend_until_acked && peerC6.is_in m.sequence_number) = true
  ∧ (encode_payload_go peerC6 encC6 [mC6a, mC6b]).count = 1 := by
  have hgo : encode_payload_go peerC6 encC6 [mC6a, mC6b]
      = ⟨1, ⟨1452, 1452, false⟩, [{ mC6a with bytes_already_sent := 1425 }, mC6b]⟩ := by
    have hacked : (mC6a.resend_until_acked && peerC6.is_in mC6a.sequence_number) = false := by
      decide
    have hte : try_encode encC6 mC6a = some (encodeMsg encC6 mC6a) := by
      unfold try_encode
      rw [if_neg]
      rw [mC6a_size]
      decide
    simp only [encode_payload_go, hacked, Bool.false_eq_true, if_false, hte, encodeMsg_C6a]
    rw [if_pos]
    · show (1425 : Nat) ≠ ({ mC6a with bytes_already_sent := 1425 } : OutMessage).payload_size
      have hsz : ({ mC6a with bytes_already_sent := 1425 } : OutMessage).payload_size = 2000 :=
        mC6a_size
      rw [hsz]
      decide
  rw [hgo]
  refine ⟨rfl, by decide, ?_, rfl⟩
  decide

theorem C6_witness :
    (∀ m ∈ qC6, m.bytes_already_sent ≤ m.payload_size)
  ∧ encC6.written + queueCost qC6 ≤ encC6.capacity
  ∧ (∀ m' ∈ (encode_payload_go peerC6 encC6 qC6).queue,
      ¬(m'.resend_until_acked = true ∧ peerC6.is_in m'.sequence_number = true)) :=
  ⟨by decide, by decide,
    (C6_retained_until_acked peerC6 encC6 qC6 (by decide) (by decide)).2.1⟩

theorem invokeErrCbs_nil (s : Socket) (e : Err) :
    invokeErrCbs s [] e
      = ⟨{ s with on_receive_unreliable := false, on_receive_reliable := false }, [],
          (if s.on_receive_unreliable then [Event.recvCbError false e] else [])
            ++ (if s.on_receive_reliable then [Event.recvCbError true e] else [])⟩ := by
  cases h1 : s.on_receive_unreliable <;> cases h2 : s.on_receive_reliable <;>
    simp [invokeErrCbs, applyEffect, CbEffect.benign, h1, h2]

theorem on_receive_error_eq (s : Socket) (env : List CbEffect) (e : Err)
    (src : Endpoint) (packet : Option (AckSet × List InMessagePart))
    (hnd : s.was_destroyed = false) :
    on_receive s env (some e) src packet
      = invokeErrCbs { s with recv_timeout_alarm := false } env e := by
  unfold on_receive
  rw [if_neg (by simp [hnd])]

/-- C2 is refuted: after close() has returned, a pending receive completion
that fires with operation_aborted still invokes both registered receive
callbacks with that error - the cancellation error is not swallowed on the
receive path. -/
theorem C2_counterexample :
    (closeImpl stC2).1.socket_open = false
  ∧ (closeImpl stC2).1.on_receive_reliable = true
  ∧ (on_receive (closeImpl stC2).1 [] (some Err.operationAborted) ⟨false, false, 1, 1⟩ none).events
      = [Event.recvCbError false Err.operationAborted,
         Event.recvCbError true Err.operationAborted] := by
  decide

/-- C2 amended: operation_aborted is swallowed only on the send path -
on_send resets the send state and returns without invoking any callback;
on the receive path any completion error, operation_aborted included, moves
out and invokes the registered receive callbacks with that error, even
after close() has returned. -/
theorem C2_abort_swallowed_only_on_send (s : Socket) (env : List CbEffect) (size : Nat)
    (hnd : s.was_destroyed = false) :
    on_send s (some Err.operationAborted) size
      = ({ s with send_state := SendState.pending }, [])
  ∧ (∀ (src : Endpoint) (packet : Option (AckSet × List InMessagePart)),
      on_receive s env (some Err.operationAborted) src packet
        = invokeErrCbs { s with recv_timeout_alarm := false } env Err.operationAborted) := by
  constructor
  · unfold on_send
    rw [if_neg (by simp [hnd])]
    rfl
  · intro src packet
    exact on_receive_error_eq s env Err.operationAborted src packet hnd

theorem C2_witness :
    stC2.was_destroyed = false
  ∧ on_send stC2 (some Err.operationAborted) 50
      = ({ stC2 with send_state := SendState.pending }, []) :=
  ⟨rfl, (C2_abort_swallowed_only_on_send stC2 [] 50 rfl).1⟩

/-- C3 is refuted: a fatal receive I/O error (here a generic error code)
leaves the UDP handle open and the keepalive alarm armed; only the
callbacks are moved out and invoked. -/
theorem C3_counterexample :
    stC3.socket_open = true
  ∧ stC3.send_keepalive_alarm = some 200
  ∧ (on_receive stC3 [] (some (Err.other 111)) ⟨false, false, 1, 1⟩ none).sock.socket_open = true
  ∧ (on_receive stC3 [] (some (Err.other 111)) ⟨false, false, 1, 1⟩ none).sock.send_keepalive_alarm
      = some 200
  ∧ (on_receive stC3 [] (some (Err.other 111)) ⟨false, false, 1, 1⟩ none).events
      = [Event.recvCbError true (Err.other 111)] := by
  decide

/-- C3 amended: on a fatal receive I/O error the completion handler stops
only the receive-timeout alarm (at entry), moves out both registered
receive callbacks and invokes each with that error and an empty buffer; it
does not close the UDP handle, stop the keepalive alarm or cancel the
pacer timer.  The full stop-alarms/close/deliver policy is handle_error,
used for parse errors, timeouts and the peer's close message. -/
theorem C3_receive_error_path (s : Socket) (e : Err) (src : Endpoint)
    (packet : Option (AckSet × List InMessagePart)) (hnd : s.was_destroyed = false) :
    ((on_receive s [] (some e) src packet).sock.socket_open = s.socket_open
      ∧ (on_receive s [] (some e) src packet).sock.send_keepalive_alarm = s.send_keepalive_alarm
      ∧ (on_receive s [] (some e) src packet).sock.timer_pending = s.timer_pending
      ∧ (on_receive s [] (some e) src packet).sock.recv_timeout_alarm = false
      ∧ (on_receive s [] (some e) src packet).sock.on_receive_reliable = false
      ∧ (on_receive s [] (some e) src packet).sock.on_receive_unreliable = false
      ∧ (on_receive s [] (some e) src packet).events
          = (if s.on_receive_unreliable then [Event.recvCbError false e] else [])
            ++ (if s.on_receive_reliable then [Event.recvCbError true e] else []))
  ∧ ((handle_error s [] e).sock.socket_open = false
      ∧ (handle_error s [] e).sock.recv_timeout_alarm = false
      ∧ (handle_error s [] e).sock.send_keepalive_alarm = none
      ∧ (handle_error s [] e).sock.timer_pending = false) := by
  constructor
  · rw [on_receive_error_eq s [] e src packet hnd, invokeErrCbs_nil]
    exact ⟨rfl, rfl, rfl, rfl, rfl, rfl, rfl⟩
  · unfold handle_error
    dsimp only
    rw [invokeErrCbs_nil]
    unfold closeImpl
    dsimp only
    by_cases hop : s.socket_open = true
    · rw [if_pos hop]
      exact ⟨rfl, rfl, rfl, rfl⟩
    · rw [if_neg hop]
      exact ⟨by simpa using hop, rfl, rfl, rfl⟩

theorem C3_witness :
    stC3.was_destroyed = false
  ∧ (on_receive stC3 [] (some (Err.other 111)) ⟨false, false, 1, 1⟩ none).sock.socket_open
      = stC3.socket_open :=
  ⟨rfl, (C3_receive_error_path stC3 (Err.other 111) ⟨false, false, 1, 1⟩ none rfl).1.1⟩

/-- C9: with the socket open, the send state pending, no acks scheduled and
encode_payload packing zero messages, the send loop emits no packet: any
registered flush callback is moved out and invoked exactly once, the
keepalive alarm is armed for 200 ms, and the loop returns leaving the send
state pending (no UDP send is issued). -/
theorem C9_quiescent_flush (s : Socket)
    (hopen : s.socket_open = true) (hpend : s.send_state = SendState.pending)
    (hnd : s.was_destroyed = false) (hsched : s.schedule_sending_acks = false)
    (hcount : (encode_payload s sendStartEncoder).count = 0) :
    (∀ n, Event.sentPacket n ∉ (start_sending s []).events)
  ∧ (start_sending s []).events = (if s.on_flush then [Event.flushed] else [])
  ∧ (start_sending s []).sock.on_flush = false
  ∧ (start_sending s []).sock.send_keepalive_alarm = some keepalive_period
  ∧ (start_sending s []).sock.send_state = SendState.pending := by
  unfold start_sending
  rw [if_neg (by simp [hopen])]
  rw [if_neg (by simp [hpend])]
  dsimp only
  rw [if_pos (by simp [hcount, hsched])]
  cases hof : s.on_flush
  · rw [if_neg (by simp)]
    exact ⟨by simp, rfl, rfl, rfl, hpend⟩
  · rw [if_pos (by simp)]
    rw [if_neg (by simp [applyEffect, CbEffect.benign, hnd])]
    rw [if_neg (by simp [applyEffect, CbEffect.benign, hopen])]
    refine ⟨by simp, rfl, rfl, rfl, ?_⟩
    simp [applyEffect, CbEffect.benign, hpend]

theorem C9_witness :
    (stC9.socket_open = true ∧ stC9.send_state = SendState.pending
      ∧ stC9.schedule_sending_acks = false
      ∧ (encode_payload stC9 sendStartEncoder).count = 0)
  ∧ (start_sending stC9 []).events = [Event.flushed] :=
  ⟨⟨rfl, rfl, rfl, by decide⟩,
    by
      have h := (C9_quiescent_flush stC9 rfl rfl rfl rfl (by decide)).2.1
      simpa using h⟩

/-- C10: when the bound remote endpoint's address is unspecified, the
receive path processes datagrams from any source (it proceeds to decode
and dispatch); the silently-discard-strays filter, which only re-arms the
receive, applies exactly when the remote address is specified and the
source differs from it. -/
theorem C10_unspecified_no_filter (s : Socket) (env : List CbEffect) (src : Endpoint)
    (packet : Option (AckSet × List InMessagePart)) (hnd : s.was_destroyed = false) :
    (s.remote_endpoint.unspecified = true →
       on_receive s env none src packet
         = on_receive_body { s with recv_timeout_alarm := false } env packet)
  ∧ (s.remote_endpoint.unspecified = false → src ≠ s.remote_endpoint →
       on_receive s env none src packet
         = ⟨{ s with recv_timeout_alarm := true }, env, [Event.startedReceive]⟩) := by
  constructor
  · intro hun
    unfold on_receive
    rw [if_neg (by simp [hnd])]
    dsimp only
    rw [if_neg (by simp [hun])]
  · intro hun hsrc
    unfold on_receive
    rw [if_neg (by simp [hnd])]
    dsimp only
    rw [if_pos (by simp [hun, hsrc])]
    rfl

theorem C10_witness :
    stC10.remote_endpoint.unspecified = true
  ∧ on_receive stC10 [] none ⟨false, false, 9, 9⟩ none
      = on_receive_body { stC10 with recv_timeout_alarm := false } [] none :=
  ⟨rfl, (C10_unspecified_no_filter stC10 [] ⟨false, false, 9, 9⟩ none rfl).1 rfl⟩

end Club
